import Mathlib

/-!
Verification of the mafia round engine (`src/mafia/game.py`) against its
natural-language specification.

The Python engine is shallowly embedded: the mutable `Game` object becomes an
explicit `GameState` record threaded through pure functions, one per phase or
sub-step of `Game.day_phase` / `Game.night_phase` / `Game.run`.  Decision
policies ("strategies") are opaque in the source, so they are modelled as an
oracle record of pure functions; where a Python strategy could act on hidden
internal state, the oracle additionally receives the growing engine trace
(current speeches, votes cast so far), so every concrete run of the Python
engine is reproduced by some oracle.  Event emissions and strategy memory
hooks (`remember`, `known_sheriff`, `checked`) have no effect on the engine
state modelled here and are omitted.
-/

namespace Mafia

/-- `Role` enumeration from `src/mafia/roles.py`. -/
inductive Role where
  | CIVILIAN
  | MAFIA
  | SHERIFF
  | DON
deriving DecidableEq

/-- `Role.is_mafia`: membership in `{Role.MAFIA, Role.DON}`. -/
def Role.is_mafia : Role → Bool
  | Role.MAFIA => true
  | Role.DON => true
  | _ => false

/-- `Role.is_civilian`: `not self.is_mafia()`. -/
def Role.is_civilian (r : Role) : Bool :=
  ! r.is_mafia

/-- `SheriffClaim` from `src/mafia/actions.py`. -/
structure SheriffClaim where
  claimant : Nat
  target : Nat
  is_mafia : Bool
deriving DecidableEq

/-- `SpeechAction` from `src/mafia/actions.py`. -/
structure SpeechAction where
  nomination : Option Nat
  claims : List SheriffClaim
deriving DecidableEq

/-- `SpeechLog` from `src/mafia/actions.py`. -/
structure SpeechLog where
  speaker : Nat
  action : SpeechAction
deriving DecidableEq

/-- `Vote` from `src/mafia/actions.py`; `target` is `None` only when no
candidates exist. -/
structure Vote where
  voter : Nat
  target : Option Nat
deriving DecidableEq

/-- `CheckResult` from `src/mafia/actions.py`. -/
structure CheckResult where
  checker : Nat
  target : Nat
  is_mafia : Bool
deriving DecidableEq

/-- `DonCheckResult` from `src/mafia/actions.py`. -/
structure DonCheckResult where
  checker : Nat
  target : Nat
  is_sheriff : Bool
deriving DecidableEq

/-- `DayLog` from `src/mafia/actions.py`. -/
structure DayLog where
  speeches : List SpeechLog
  votes : List Vote
  eliminated : Option (List Nat)
deriving DecidableEq

/-- `NightLog` from `src/mafia/actions.py`. -/
structure NightLog where
  sheriff_check : Option CheckResult
  don_check : Option DonCheckResult
  kill : Option Nat
deriving DecidableEq

/-- `RoundLog` from `src/mafia/actions.py`. -/
structure RoundLog where
  day : DayLog
  night : Option NightLog
deriving DecidableEq

/-- `Player` from `src/mafia/player.py`, minus the strategy object (decision
policies are modelled by the separate `Strategy` oracle, keyed by `pid`). -/
structure Player where
  pid : Nat
  role : Role
  alive : Bool
deriving DecidableEq

/-- Out-of-range placeholder for indexed access; `alive := false` so that an
out-of-range liveness query reads as dead (the Python engine never indexes out
of range). -/
def defaultPlayer : Player :=
  { pid := 0, role := Role.CIVILIAN, alive := false }

/-- The mutable state of `Game` from `src/mafia/game.py`: the player list,
the accumulated round history, the rotation pointer `day_start_pid` and the
`current_speeches` buffer. -/
structure GameState where
  players : List Player
  history : List RoundLog
  day_start_pid : Nat
  current_speeches : List SpeechLog
deriving DecidableEq

/-- Decision-policy oracle standing in for the per-player strategy objects.
Each function receives the game state visible to the Python strategy plus the
caller's pid; `vote` additionally receives the votes recorded so far in the
day (strictly growing during a day, so a stateful Python strategy's responses
in any single run are reproduced by some oracle). -/
structure Strategy where
  speak : GameState → Nat → SpeechAction
  last_words : GameState → Nat → SpeechAction
  vote : GameState → Nat → List Nat → List Vote → Option Nat
  vote_elimination : GameState → Nat → List Nat → Bool
  mafia_kill : GameState → Nat → List Nat → Option Nat
  don_check : GameState → Nat → List Nat → Option Nat
  sheriff_check : GameState → Nat → List Nat → Option Nat

/-- `Game.get_player`: `self.players[pid]`. -/
def getPlayer (g : GameState) (pid : Nat) : Player :=
  g.players.getD pid defaultPlayer

/-- `Game.alive_players`: `[p for p in self.players if p.alive]`. -/
def alivePlayers (g : GameState) : List Player :=
  g.players.filter (fun p => p.alive)

/-- `Game.is_alive`: `self.players[pid].alive`. -/
def isAlive (g : GameState) (pid : Nat) : Bool :=
  (getPlayer g pid).alive

/-- `self.players[pid].alive = b` (a no-op when `pid` is out of range, which
the engine never does). -/
def setAlive (g : GameState) (pid : Nat) (b : Bool) : GameState :=
  { g with players := g.players.set pid { getPlayer g pid with alive := b } }

/-- `Game.add_speech` as far as engine state is concerned: append to
`current_speeches` (listener callbacks and events carry no engine state). -/
def addSpeech (g : GameState) (s : SpeechLog) : GameState :=
  { g with current_speeches := g.current_speeches ++ [s] }

/-- `Game.mafia_count`: alive players whose role `is_mafia`. -/
def mafiaCount (g : GameState) : Nat :=
  ((alivePlayers g).filter (fun p => p.role.is_mafia)).length

/-- `Game.civilian_count`: alive players whose role `is_civilian`. -/
def civilianCount (g : GameState) : Nat :=
  ((alivePlayers g).filter (fun p => p.role.is_civilian)).length

/-- `Game.check_win` from `src/mafia/game.py` lines 59-64. -/
def checkWin (g : GameState) : Option Role :=
  if mafiaCount g = 0 then some Role.CIVILIAN
  else if civilianCount g ≤ mafiaCount g then some Role.MAFIA
  else none

/-- C1: `check_win` returns the civilian win exactly when no mafia-aligned
player (roles MAFIA, DON) is alive; the mafia win exactly when the alive
mafia-aligned count is non-zero and at least the alive civilian-aligned count
(roles CIVILIAN, SHERIFF); and is undecided otherwise — in particular
whenever both alignments have at least one alive member and the mafia-aligned
count is strictly smaller. -/
theorem c1_check_win (g : GameState) :
    (checkWin g = some Role.CIVILIAN ↔ mafiaCount g = 0)
    ∧ (checkWin g = some Role.MAFIA ↔
        mafiaCount g ≠ 0 ∧ civilianCount g ≤ mafiaCount g)
    ∧ (checkWin g = none ↔
        mafiaCount g ≠ 0 ∧ mafiaCount g < civilianCount g)
    ∧ (1 ≤ mafiaCount g → 1 ≤ civilianCount g →
        mafiaCount g < civilianCount g → checkWin g = none) := by
  unfold checkWin
  rcases Nat.eq_zero_or_pos (mafiaCount g) with h0 | hpos
  · simp [h0]
  · have hne : mafiaCount g ≠ 0 := Nat.pos_iff_ne_zero.mp hpos
    by_cases hle : civilianCount g ≤ mafiaCount g
    · simp [hne, hle, Nat.not_lt.mpr hle]
    · simp [hne, hle, Nat.lt_of_not_le hle]

/-- Result of the speeches-and-nominations stage of `Game.day_phase`
(`src/mafia/game.py` lines 132-166): the state after all speeches, the
collected speech records, the ordered de-duplicated nomination list, and the
rotation-ordered alive speaker list. -/
structure SpeechStageResult where
  state : GameState
  speeches : List SpeechLog
  nominations : List Nat
  ordered : List Player
deriving DecidableEq

/-- The previous night's kill, if any (`Game.day_phase` lines 138-140). -/
def lastNightKill (g : GameState) : Option Nat :=
  match g.history.getLast? with
  | some rl =>
    match rl.night with
    | some n => n.kill
    | none => none
  | none => none

/-- Rotation speeches (`Game.day_phase` lines 157-166): each speaker's speech
is recorded and a fresh, alive nomination target is appended to the
nomination list. -/
def speechFold (strat : Strategy) :
    List Player → GameState → List SpeechLog → List Nat →
    GameState × List SpeechLog × List Nat
  | [], g, sps, noms => (g, sps, noms)
  | p :: rest, g, sps, noms =>
    let a := strat.speak g p.pid
    let sp : SpeechLog := ⟨p.pid, a⟩
    let g1 := addSpeech g sp
    let noms1 :=
      match a.nomination with
      | some t => if isAlive g1 t && ! noms.contains t then noms ++ [t] else noms
      | none => noms
    speechFold strat rest g1 (sps ++ [sp]) noms1

/-- The speeches-and-nominations stage of `Game.day_phase` (lines 132-166):
reset `current_speeches`, let last night's victim give nomination-suppressed
last words, then run the rotation speeches starting from the first alive
player whose pid is at least the rotation pointer. -/
def speechStage (strat : Strategy) (g0 : GameState) : SpeechStageResult :=
  let g := { g0 with current_speeches := [] }
  let start :=
    match lastNightKill g with
    | some k =>
      let a := strat.last_words g k
      let a1 := { a with nomination := none }
      let sp : SpeechLog := ⟨(getPlayer g k).pid, a1⟩
      (addSpeech g sp, [sp])
    | none => (g, ([] : List SpeechLog))
  let alive := alivePlayers start.1
  let si :=
    match alive.findIdx? (fun p => g0.day_start_pid ≤ p.pid) with
    | some i => i
    | none => 0
  let ordered := alive.drop si ++ alive.take si
  let r := speechFold strat ordered start.1 start.2 []
  ⟨r.1, r.2.1, r.2.2, ordered⟩

/-- The forced-vote coercion (`Game.day_phase` lines 179-184): a policy
return that is not a current candidate (including a null return) becomes the
last candidate. -/
def coerce (candidates : List Nat) (raw : Option Nat) : Nat :=
  match raw with
  | some x => if candidates.contains x then x else candidates.getLastD 0
  | none => candidates.getLastD 0

/-- One voting pass over the alive players (`Game.day_phase` lines 178-189):
each alive player votes and the coerced vote is appended. -/
def voteLoop (strat : Strategy) (g : GameState) (candidates : List Nat) :
    List Player → List Vote → List Vote
  | [], votes => votes
  | p :: rest, votes =>
    let t := coerce candidates (strat.vote g p.pid candidates votes)
    voteLoop strat g candidates rest (votes ++ [⟨p.pid, some t⟩])

/-- A full voting pass of the alive players in seating order. -/
def voteRound (strat : Strategy) (g : GameState) (candidates : List Nat)
    (votes : List Vote) : List Vote :=
  voteLoop strat g candidates (alivePlayers g) votes

/-- `vote_counts[c]` at the end of a voting pass: this round's votes for `c`. -/
def countVotes (rv : List Vote) (c : Nat) : Nat :=
  (rv.filter (fun v => v.target == some c)).length

/-- `max(vote_counts.values())` over the candidate list. -/
def maxCount (rv : List Vote) (candidates : List Nat) : Nat :=
  (candidates.map (countVotes rv)).foldr Nat.max 0

/-- Extra speeches for tied candidates (`Game.day_phase` lines 206-218):
every nominee in the tied set speaks again with nomination suppressed. -/
def tieSpeechFold (strat : Strategy) (top : List Nat) :
    List Nat → GameState → List SpeechLog → GameState × List SpeechLog
  | [], g, sps => (g, sps)
  | pid :: rest, g, sps =>
    if top.contains pid then
      let a := strat.speak g pid
      let a1 := { a with nomination := none }
      let sp : SpeechLog := ⟨(getPlayer g pid).pid, a1⟩
      tieSpeechFold strat top rest (addSpeech g sp) (sps ++ [sp])
    else
      tieSpeechFold strat top rest g sps

/-- `previous_candidates and set(top) == set(previous_candidates)`
(`Game.day_phase` line 220); an empty previous list is falsy. -/
def prevSame (previous : Option (List Nat)) (top : List Nat) : Bool :=
  match previous with
  | none => false
  | some pv =>
    ! pv.isEmpty && pv.all (fun x => top.contains x)
      && top.all (fun x => pv.contains x)

/-- Yes votes of the binary mass-elimination vote (`Game.day_phase` lines
225-227). -/
def yesVotes (strat : Strategy) (g : GameState) (top : List Nat) : Nat :=
  ((alivePlayers g).filter (fun p => strat.vote_elimination g p.pid top)).length

/-- This round's tied leader set `top` (`Game.day_phase` lines 199-200): the
candidates, in candidate order, whose tally over this round's votes equals
the maximum tally. -/
def topOf (strat : Strategy) (g : GameState) (c : List Nat)
    (votes : List Vote) : List Nat :=
  let rv := (voteRound strat g c votes).drop votes.length
  c.filter (fun x => countVotes rv x == maxCount rv c)

/-- Outcome of the voting loop: final state, speech and vote records, and the
eliminated ids (empty when nobody is voted out). -/
structure VotingResult where
  state : GameState
  speeches : List SpeechLog
  votes : List Vote
  eliminated : List Nat
deriving DecidableEq

/-- The `while current_candidates:` voting loop (`Game.day_phase` lines
175-234), with explicit fuel.  `day_phase` passes fuel
`nominations.length + 2`, which can never run out: every iteration either
returns or strictly shrinks the candidate list, except that the first may
keep it unchanged (the following iteration then hits the same-set branch). -/
def votingLoop (strat : Strategy) (nominations : List Nat) :
    Nat → List Nat → Option (List Nat) → GameState → List SpeechLog →
    List Vote → VotingResult
  | _, [], _, g, sps, votes => ⟨g, sps, votes, []⟩
  | 0, _, _, g, sps, votes => ⟨g, sps, votes, []⟩
  | fuel + 1, c, previous, g, sps, votes =>
    let votes1 := voteRound strat g c votes
    let top := topOf strat g c votes
    if top.length = 1 then ⟨g, sps, votes1, top⟩
    else
      let gs := tieSpeechFold strat top nominations g sps
      if prevSame previous top then
        if (alivePlayers gs.1).length / 2 < yesVotes strat gs.1 top then
          ⟨gs.1, gs.2, votes1, top⟩
        else
          ⟨gs.1, gs.2, votes1, []⟩
      else
        votingLoop strat nominations fuel top (some top) gs.1 gs.2 votes1

/-- Eliminated players' last words (`Game.day_phase` lines 244-253), in the
order they appear in the elimination list. -/
def lastWordsFold (strat : Strategy) :
    List Nat → GameState → List SpeechLog → GameState × List SpeechLog
  | [], g, sps => (g, sps)
  | pid :: rest, g, sps =>
    let a := strat.last_words g pid
    let a1 := { a with nomination := none }
    let sp : SpeechLog := ⟨(getPlayer g pid).pid, a1⟩
    lastWordsFold strat rest (addSpeech g sp) (sps ++ [sp])

/-- The new rotation pointer (`Game.day_phase` lines 256-262): first alive
pid at least one past this round's first speaker, else the first alive pid,
else `0`. -/
def nextDayStart (g : GameState) (first : Player) : Nat :=
  match (g.players.filter (fun p => p.alive && first.pid + 1 ≤ p.pid)).head? with
  | some p => p.pid
  | none =>
    match g.players.find? (fun p => p.alive) with
    | some q => q.pid
    | none => 0

/-- Rotation-pointer update (`Game.day_phase` lines 255-262); skipped when
nobody spoke in rotation. -/
def updateRotation (g : GameState) (ordered : List Player) : GameState :=
  match ordered with
  | [] => g
  | first :: _ => { g with day_start_pid := nextDayStart g first }

/-- The voting stage of `Game.day_phase`: the day-1 single-nomination skip
rule (line 171) or the voting loop over the nominations. -/
def dayVoting (strat : Strategy) (day_no : Nat) (s : SpeechStageResult) :
    VotingResult :=
  if day_no == 1 && s.nominations.length == 1 then
    ⟨s.state, s.speeches, [], []⟩
  else
    votingLoop strat s.nominations (s.nominations.length + 2) s.nominations
      none s.state s.speeches []

/-- The state after eliminations and last words, just before the rotation
update (`Game.day_phase` lines 236-253). -/
def dayMid (strat : Strategy) (day_no : Nat) (g0 : GameState) : GameState :=
  let s := speechStage strat g0
  let vr := dayVoting strat day_no s
  (lastWordsFold strat vr.eliminated
    (vr.eliminated.foldl (fun h2 pid => setAlive h2 pid false) vr.state)
    vr.speeches).1

/-- `Game.day_phase` (`src/mafia/game.py` lines 123-265): speeches and
nominations, the first-day single-nomination skip rule, the voting loop,
eliminations, last words, and the rotation update.  Event emissions are
omitted. -/
def dayPhase (strat : Strategy) (day_no : Nat) (g0 : GameState) :
    DayLog × GameState :=
  let s := speechStage strat g0
  let vr := dayVoting strat day_no s
  let gs3 := lastWordsFold strat vr.eliminated
    (vr.eliminated.foldl (fun h2 pid => setAlive h2 pid false) vr.state)
    vr.speeches
  (⟨gs3.2, vr.votes, if vr.eliminated.isEmpty then none else some vr.eliminated⟩,
   updateRotation gs3.1 s.ordered)

/-- Three-player roster (one mafia, one civilian, one sheriff, all alive)
used as the C1 witness state. -/
def c1State : GameState :=
  { players := [⟨0, Role.MAFIA, true⟩, ⟨1, Role.CIVILIAN, true⟩, ⟨2, Role.SHERIFF, true⟩]
    history := []
    day_start_pid := 0
    current_speeches := [] }

/-- Witness for C1 at a concrete state: one alive mafia, two alive
civilian-aligned players, win check undecided. -/
theorem c1_check_win_witness :
    checkWin c1State = none :=
  (c1_check_win c1State).2.2.2 (by decide) (by decide) (by decide)

/-- `addSpeech` only touches the speech buffer. -/
theorem addSpeech_players (g : GameState) (s : SpeechLog) :
    (addSpeech g s).players = g.players := rfl

/-- The rotation speeches never change the player list. -/
theorem speechFold_players (strat : Strategy) (ps : List Player) :
    ∀ (g : GameState) (sps : List SpeechLog) (noms : List Nat),
      (speechFold strat ps g sps noms).1.players = g.players := by
  induction ps with
  | nil => intro g sps noms; rfl
  | cons p rest ih =>
    intro g sps noms
    simp only [speechFold]
    exact ih _ _ _

/-- The whole speech stage never changes the player list. -/
theorem speechStage_players (strat : Strategy) (g : GameState) :
    (speechStage strat g).state.players = g.players := by
  unfold speechStage
  cases h : lastNightKill { g with current_speeches := [] } with
  | none => simp only [h]; exact speechFold_players strat _ _ _ _
  | some k => simp only [h]; exact speechFold_players strat _ _ _ _

/-- The rotation update only touches the rotation pointer. -/
theorem updateRotation_players (g : GameState) (o : List Player) :
    (updateRotation g o).players = g.players := by
  cases o with
  | nil => rfl
  | cons a t => rfl

/-- Liveness queries only read the player list. -/
theorem isAlive_eq_of_players_eq {g h : GameState}
    (he : g.players = h.players) (pid : Nat) :
    isAlive g pid = isAlive h pid := by
  unfold isAlive getPlayer
  rw [he]

/-- C3: on the first round, if the speeches produced exactly one nomination,
voting is skipped entirely: the day log has zero vote records and an empty
elimination result, and no player's liveness is changed by the voting
stage. -/
theorem c3_day1_single_nomination_skip (strat : Strategy) (g : GameState)
    (h1 : (speechStage strat g).nominations.length = 1) :
    (dayPhase strat 1 g).1.votes = []
    ∧ (dayPhase strat 1 g).1.eliminated = none
    ∧ ∀ pid, isAlive (dayPhase strat 1 g).2 pid = isAlive g pid := by
  have hcond : ((1 : Nat) == 1 && (speechStage strat g).nominations.length == 1)
      = true := by
    simp [h1]
  refine ⟨?_, ?_, ?_⟩
  · simp only [dayPhase, dayVoting, hcond, if_true]
  · simp only [dayPhase, dayVoting, hcond, if_true, lastWordsFold,
      List.foldl_nil, List.isEmpty_nil, if_true]
  · intro pid
    refine isAlive_eq_of_players_eq ?_ pid
    simp only [dayPhase, dayVoting, hcond, if_true, lastWordsFold,
      List.foldl_nil]
    rw [updateRotation_players]
    exact speechStage_players strat g

/-- Concrete day-1 state with exactly one nomination (player 0 nominates
player 1; both alive) used as the C3 witness. -/
def c3State : GameState :=
  { players := [⟨0, Role.CIVILIAN, true⟩, ⟨1, Role.CIVILIAN, true⟩]
    history := []
    day_start_pid := 0
    current_speeches := [] }

/-- Oracle where player 0 nominates player 1 and nobody votes. -/
def c3Strategy : Strategy :=
  { speak := fun _ pid => if pid = 0 then ⟨some 1, []⟩ else ⟨none, []⟩
    last_words := fun _ _ => ⟨none, []⟩
    vote := fun _ _ _ _ => none
    vote_elimination := fun _ _ _ => false
    mafia_kill := fun _ _ _ => none
    don_check := fun _ _ _ => none
    sheriff_check := fun _ _ _ => none }

/-- Witness for C3: on day 1 with the single nomination of player 1, the
voting stage is skipped. -/
theorem c3_day1_single_nomination_skip_witness :
    (speechStage c3Strategy c3State).nominations.length = 1
    ∧ (dayPhase c3Strategy 1 c3State).1.votes = []
    ∧ (dayPhase c3Strategy 1 c3State).1.eliminated = none
    ∧ isAlive (dayPhase c3Strategy 1 c3State).2 1 = isAlive c3State 1 := by
  have h := c3_day1_single_nomination_skip c3Strategy c3State (by decide)
  exact ⟨by decide, h.1, h.2.1, h.2.2 1⟩

/-- The last element of a non-empty list is a member. -/
theorem getLastD_mem_of_ne_nil (c : List Nat) (hc : c ≠ []) :
    c.getLastD 0 ∈ c := by
  rw [List.getLastD_eq_getLast?, List.getLast?_eq_getLast c hc]
  exact List.getLast_mem hc

/-- The coerced vote target is always a current candidate. -/
theorem coerce_mem (c : List Nat) (hc : c ≠ []) (raw : Option Nat) :
    coerce c raw ∈ c := by
  cases raw with
  | none => simpa [coerce] using getLastD_mem_of_ne_nil c hc
  | some x =>
    by_cases hx : c.contains x
    · simp only [coerce, hx, if_true]
      exact List.elem_iff.mp hx
    · simp only [coerce, hx, if_false]
      exact getLastD_mem_of_ne_nil c hc

/-- Shape of a voting pass: it appends one coerced vote per listed player, in
order, and every appended target is a candidate. -/
theorem voteLoop_shape (strat : Strategy) (g : GameState) (c : List Nat)
    (hc : c ≠ []) (ps : List Player) :
    ∀ vs, ∃ new, voteLoop strat g c ps vs = vs ++ new
      ∧ new.map Vote.voter = ps.map Player.pid
      ∧ ∀ v ∈ new, ∃ t, v.target = some t ∧ t ∈ c := by
  induction ps with
  | nil =>
    intro vs
    exact ⟨[], by simp [voteLoop], by simp, by simp⟩
  | cons p rest ih =>
    intro vs
    obtain ⟨new, h1, h2, h3⟩ :=
      ih (vs ++ [⟨p.pid, some (coerce c (strat.vote g p.pid c vs))⟩])
    refine ⟨⟨p.pid, some (coerce c (strat.vote g p.pid c vs))⟩ :: new, ?_, ?_, ?_⟩
    · simpa [voteLoop] using h1
    · simp [h2]
    · intro v hv
      rcases List.mem_cons.mp hv with hv | hv
      · exact hv ▸ ⟨_, rfl, coerce_mem c hc _⟩
      · exact h3 v hv

/-- C4: in any voting pass with a non-empty candidate list, every alive
player contributes exactly one recorded vote (in seating order); each
recorded target is a member of the candidate list; a policy return that is a
current candidate is recorded unchanged, while any other return (a
non-candidate or null) is coerced to the last candidate; and each recorded
vote is exactly the coercion of the policy's return at that point. -/
theorem c4_forced_votes (strat : Strategy) (g : GameState) (c : List Nat)
    (votes : List Vote) (hc : c ≠ []) :
    ((voteRound strat g c votes).map Vote.voter =
        votes.map Vote.voter ++ (alivePlayers g).map Player.pid)
    ∧ (∀ v ∈ (voteRound strat g c votes).drop votes.length,
        ∃ t, v.target = some t ∧ t ∈ c)
    ∧ (∀ x ∈ c, coerce c (some x) = x)
    ∧ (∀ raw : Option Nat, (∀ x, raw = some x → x ∉ c) →
        coerce c raw = c.getLast hc)
    ∧ (∀ (p : Player) (ps : List Player) (vs : List Vote),
        voteLoop strat g c (p :: ps) vs =
          voteLoop strat g c ps
            (vs ++ [⟨p.pid, some (coerce c (strat.vote g p.pid c vs))⟩])) := by
  obtain ⟨new, h1, h2, h3⟩ := voteLoop_shape strat g c hc (alivePlayers g) votes
  have hlast : c.getLastD 0 = c.getLast hc := by
    rw [List.getLastD_eq_getLast?, List.getLast?_eq_getLast c hc]
    rfl
  refine ⟨?_, ?_, ?_, ?_, ?_⟩
  · rw [voteRound, h1]
    simp [h2]
  · intro v hv
    rw [voteRound, h1, List.drop_left] at hv
    exact h3 v hv
  · intro x hx
    simp only [coerce, List.elem_iff.mpr hx, if_true]
  · intro raw hraw
    cases raw with
    | none => simpa [coerce] using hlast
    | some x =>
      have hx : c.contains x = false := by
        by_contra hcon
        exact hraw x rfl (List.elem_iff.mp (Bool.of_not_eq_false hcon))
      simp only [coerce, hx, if_false]
      exact hlast
  · intro p ps vs
    rfl

/-- Two-candidate roster used as the C4 witness: player 2's policy returns a
non-candidate, player 0 votes for candidate 1. -/
def c4State : GameState :=
  { players := [⟨0, Role.CIVILIAN, true⟩, ⟨1, Role.CIVILIAN, true⟩,
      ⟨2, Role.CIVILIAN, true⟩]
    history := []
    day_start_pid := 0
    current_speeches := [] }

/-- Oracle for the C4 witness: pid 0 votes 1, everyone else abstains. -/
def c4Strategy : Strategy :=
  { speak := fun _ _ => ⟨none, []⟩
    last_words := fun _ _ => ⟨none, []⟩
    vote := fun _ pid _ _ => if pid = 0 then some 1 else none
    vote_elimination := fun _ _ _ => false
    mafia_kill := fun _ _ _ => none
    don_check := fun _ _ _ => none
    sheriff_check := fun _ _ _ => none }

/-- Witness for C4 on candidates `[1, 2]`: three votes are recorded, all for
candidates, abstentions forced to the last candidate `2`. -/
theorem c4_forced_votes_witness :
    ((voteRound c4Strategy c4State [1, 2] []).map Vote.voter = [0, 1, 2])
    ∧ (∀ v ∈ (voteRound c4Strategy c4State [1, 2] []).drop 0,
        ∃ t, v.target = some t ∧ t ∈ [1, 2]) := by
  have h := c4_forced_votes c4Strategy c4State [1, 2] [] (by decide)
  exact ⟨by simpa using h.1, h.2.1⟩

/-- Two-civilian roster whose day has no nominations: the C2 failing input. -/
def c2State : GameState :=
  { players := [⟨0, Role.CIVILIAN, true⟩, ⟨1, Role.CIVILIAN, true⟩]
    history := []
    day_start_pid := 0
    current_speeches := [] }

/-- Oracle whose players never nominate, never vote and never act at night. -/
def silentStrategy : Strategy :=
  { speak := fun _ _ => ⟨none, []⟩
    last_words := fun _ _ => ⟨none, []⟩
    vote := fun _ _ _ _ => none
    vote_elimination := fun _ _ _ => false
    mafia_kill := fun _ _ _ => none
    don_check := fun _ _ _ => none
    sheriff_check := fun _ _ _ => none }

/-- C2 is a code bug: with two alive players and an empty nomination list the
voting loop is never entered, so the engine records no votes at all — the
abstain-recording branch (`Game.day_phase` lines 190-195) is dead code guarded
by `while current_candidates:` — although both the claim and the source's own
comments (the `Vote` docstring and the branch comment) call for one
null-target abstain vote per alive player.  (No tally and no elimination do
hold.) -/
theorem c2_empty_nominations_no_votes :
    (dayPhase silentStrategy 1 c2State).1.votes = []
    ∧ (dayPhase silentStrategy 1 c2State).1.eliminated = none
    ∧ (alivePlayers c2State).length = 2 := by
  refine ⟨by decide, by decide, by decide⟩

/-- C5: when a revote ties on exactly the same set as the immediately
preceding tie, the tied candidates get their extra speeches, then a binary
mass-elimination vote is held over all alive players; the whole tied set is
eliminated exactly when the yes votes strictly exceed half of the alive
count; with fewer yes votes nobody is eliminated; and in both cases the loop
terminates — the recorded votes are exactly the prior votes plus this single
round. -/
theorem c5_same_set_revote_mass_elimination (strat : Strategy)
    (nominations c pv : List Nat) (fuel : Nat) (g : GameState)
    (sps : List SpeechLog) (votes : List Vote)
    (top : List Nat) (gs : GameState × List SpeechLog) (n yes : Nat)
    (hc : c ≠ [])
    (hteq : top = topOf strat g c votes)
    (htop : 1 < top.length)
    (hsame : prevSame (some pv) top = true)
    (hgs : gs = tieSpeechFold strat top nominations g sps)
    (hn : n = (alivePlayers gs.1).length)
    (hyes : yes = yesVotes strat gs.1 top) :
    votingLoop strat nominations (fuel + 1) c (some pv) g sps votes
      = ⟨gs.1, gs.2, voteRound strat g c votes, if n / 2 < yes then top else []⟩
    ∧ ((votingLoop strat nominations (fuel + 1) c (some pv) g sps votes).eliminated
        = top ↔ n < 2 * yes)
    ∧ (2 * yes ≤ n →
        (votingLoop strat nominations (fuel + 1) c (some pv) g sps votes).eliminated
          = []) := by
  subst hteq
  subst hgs
  subst hn
  subst hyes
  have hne1 : ¬ ((topOf strat g c votes).length = 1) := by omega
  have htopne : topOf strat g c votes ≠ [] := by
    intro hnil
    rw [hnil] at htop
    simp at htop
  have hstep : votingLoop strat nominations (fuel + 1) c (some pv) g sps votes
      = ⟨(tieSpeechFold strat (topOf strat g c votes) nominations g sps).1,
         (tieSpeechFold strat (topOf strat g c votes) nominations g sps).2,
         voteRound strat g c votes,
         if (alivePlayers
              (tieSpeechFold strat (topOf strat g c votes) nominations g sps).1).length / 2
            < yesVotes strat
                (tieSpeechFold strat (topOf strat g c votes) nominations g sps).1
                (topOf strat g c votes)
         then topOf strat g c votes else []⟩ := by
    cases c with
    | nil => exact absurd rfl hc
    | cons a c' =>
      simp only [votingLoop, hsame, if_neg hne1, if_true]
      split
      · rfl
      · rfl
  refine ⟨hstep, ?_, ?_⟩
  · rw [hstep]
    by_cases hmaj : (alivePlayers
        (tieSpeechFold strat (topOf strat g c votes) nominations g sps).1).length / 2
        < yesVotes strat
            (tieSpeechFold strat (topOf strat g c votes) nominations g sps).1
            (topOf strat g c votes)
    · rw [if_pos hmaj]
      exact iff_of_true rfl (by omega)
    · rw [if_neg hmaj]
      exact iff_of_false (fun h => htopne h.symm) (by omega)
  · intro hle
    rw [hstep]
    have hmaj : ¬ ((alivePlayers
        (tieSpeechFold strat (topOf strat g c votes) nominations g sps).1).length / 2
        < yesVotes strat
            (tieSpeechFold strat (topOf strat g c votes) nominations g sps).1
            (topOf strat g c votes)) := by omega
    rw [if_neg hmaj]

/-- Four-civilian roster used as the C5 witness state. -/
def c5State : GameState :=
  { players := [⟨0, Role.CIVILIAN, true⟩, ⟨1, Role.CIVILIAN, true⟩,
      ⟨2, Role.CIVILIAN, true⟩, ⟨3, Role.CIVILIAN, true⟩]
    history := []
    day_start_pid := 0
    current_speeches := [] }

/-- Oracle for the C5 witness: even pids vote for 1, odd pids for 2; all but
pid 1 support mass elimination. -/
def c5Strategy : Strategy :=
  { speak := fun _ _ => ⟨none, []⟩
    last_words := fun _ _ => ⟨none, []⟩
    vote := fun _ pid _ _ => if pid % 2 = 0 then some 1 else some 2
    vote_elimination := fun _ pid _ => pid != 1
    mafia_kill := fun _ _ _ => none
    don_check := fun _ _ _ => none
    sheriff_check := fun _ _ _ => none }

/-- Witness for C5: four voters revote `{1, 2}` against previous tie
`{1, 2}`; three of four yes votes (a strict majority) eliminate both, and
exactly one further round of four votes is recorded. -/
theorem c5_same_set_revote_mass_elimination_witness :
    (votingLoop c5Strategy [1, 2] 5 [1, 2] (some [1, 2]) c5State [] []).eliminated
      = [1, 2]
    ∧ (votingLoop c5Strategy [1, 2] 5 [1, 2] (some [1, 2]) c5State [] []).votes.length
      = 4 := by
  have h := c5_same_set_revote_mass_elimination c5Strategy [1, 2] [1, 2] [1, 2] 4
      c5State [] [] (topOf c5Strategy c5State [1, 2] [])
      (tieSpeechFold c5Strategy (topOf c5Strategy c5State [1, 2] []) [1, 2] c5State [])
      (alivePlayers (tieSpeechFold c5Strategy
        (topOf c5Strategy c5State [1, 2] []) [1, 2] c5State []).1).length
      (yesVotes c5Strategy (tieSpeechFold c5Strategy
        (topOf c5Strategy c5State [1, 2] []) [1, 2] c5State []).1
        (topOf c5Strategy c5State [1, 2] []))
      (by decide) rfl (by decide) (by decide) rfl rfl rfl
  constructor
  · have h2 := h.2.1.mpr (by decide)
    rw [h2]
    decide
  · rw [h.1]
    decide

/-! ### Night phase

The no-don kill resolution in `Game.night_phase` is
`max(set(suggestions), key=suggestions.count)`.  Its tie-break depends on the
iteration order of a CPython `set`, so that order is modelled concretely:
for non-negative machine integers `hash(n) = n`, the table starts at 8 slots,
a key probes slot `hash & mask`, then a 9-slot linear window when
`i + 9 <= mask`, then jumps by `i = i*5 + 1 + (perturb >>= 5)`; after a new
key is stored the table grows to hold `used*4` once `fill*5 >= mask*3`;
iteration walks the slots in ascending order. -/

/-- Probe outcome in the hash-table model of a CPython `set`. -/
inductive ProbeResult where
  | empty (slot : Nat)
  | present
  | fail
deriving DecidableEq

/-- Scan `count` consecutive slots starting at `i` for key `x` or a free
slot (the `do .. while (probes--)` window of CPython's `set_add_entry`). -/
def windowScan (t : List (Option Nat)) (x : Nat) : Nat → Nat → ProbeResult
  | _, 0 => ProbeResult.fail
  | i, count + 1 =>
    match t.getD i none with
    | none => ProbeResult.empty i
    | some y => if y = x then ProbeResult.present else windowScan t x (i + 1) count

/-- CPython `set_add_entry` probing for key `x` with `hash x = x`: the slot
`x & mask` plus the linear window when it fits, then the perturb jump.  Fuel
makes the search total; the callers pass `table.length + 14`, enough for any
64-bit hash. -/
def setAddProbe (t : List (Option Nat)) (mask x : Nat) :
    Nat → Nat → Nat → ProbeResult
  | _, _, 0 => ProbeResult.fail
  | i, perturb, fuel + 1 =>
    match windowScan t x i (if i + 9 ≤ mask then 10 else 1) with
    | ProbeResult.fail =>
      setAddProbe t mask x ((i * 5 + 1 + perturb / 32) % (mask + 1))
        (perturb / 32) fuel
    | r => r

/-- A CPython set of small non-negative ints: open-addressing table plus the
occupied-slot count. -/
structure PySet where
  table : List (Option Nat)
  fill : Nat
deriving DecidableEq

/-- `newsize = PySet_MINSIZE; while (newsize <= minused) newsize <<= 1;` -/
def newSizeLoop (minused : Nat) : Nat → Nat → Nat
  | 0, cur => cur
  | fuel + 1, cur => if minused < cur then cur else newSizeLoop minused fuel (cur * 2)

/-- The grown table size for a requested load. -/
def newSize (minused : Nat) : Nat :=
  newSizeLoop minused 64 8

/-- One reinsertion of `set_insert_clean` during a resize (distinct keys, so
the equality checks of the shared probe cannot fire). -/
def resizeStep (ns : Nat) (acc : PySet) (x : Nat) : PySet :=
  match setAddProbe acc.table (ns - 1) x (x % ns) x (ns + 14) with
  | ProbeResult.empty slot => ⟨acc.table.set slot (some x), acc.fill⟩
  | _ => acc

/-- `set_table_resize`: rebuild at the new size, reinserting the keys in old
table order. -/
def pySetResize (s : PySet) (minused : Nat) : PySet :=
  (s.table.filterMap id).foldl (resizeStep (newSize minused))
    ⟨List.replicate (newSize minused) none, s.fill⟩

/-- `set_add_entry` followed by the growth check. -/
def pySetAdd (s : PySet) (x : Nat) : PySet :=
  match setAddProbe s.table (s.table.length - 1) x (x % s.table.length) x
      (s.table.length + 14) with
  | ProbeResult.empty slot =>
    let t := s.table.set slot (some x)
    if (s.table.length - 1) * 3 ≤ (s.fill + 1) * 5 then
      pySetResize ⟨t, s.fill + 1⟩ ((s.fill + 1) * 4)
    else ⟨t, s.fill + 1⟩
  | _ => s

/-- `set(xs)`: fold insertion into the initial 8-slot table. -/
def pySetOfList (xs : List Nat) : PySet :=
  xs.foldl pySetAdd ⟨List.replicate 8 none, 0⟩

/-- Iteration order of the CPython set: the stored keys in ascending slot
order. -/
def pySetList (xs : List Nat) : List Nat :=
  (pySetOfList xs).table.filterMap id

/-- Python's `max(iter, key=xs.count)`: the first maximum under the key, in
iteration order. -/
def pyMaxByCount (xs : List Nat) : List Nat → Option Nat
  | [] => none
  | y :: ys =>
    some (ys.foldl (fun best z => if xs.count best < xs.count z then z else best) y)

/-- Alive mafia-aligned players (`Game.night_phase` line 275), in seating
order. -/
def mafiaAlive (g : GameState) : List Player :=
  (alivePlayers g).filter (fun p => p.role.is_mafia)

/-- The non-null kill proposals of the alive mafia in the no-don branch
(`Game.night_phase` lines 282-283). -/
def killSuggestions (strat : Strategy) (g : GameState) : List Nat :=
  (mafiaAlive g).filterMap
    (fun m => strat.mafia_kill g m.pid ((alivePlayers g).map (fun p => p.pid)))

/-- Night kill resolution (`Game.night_phase` lines 275-285): the don's
choice when a don is alive, otherwise `max(set(suggestions),
key=suggestions.count)` over the mafia's non-null proposals. -/
def resolveKill (strat : Strategy) (g : GameState) : Option Nat :=
  if (mafiaAlive g).isEmpty then none
  else
    match (mafiaAlive g).find? (fun p => decide (p.role = Role.DON)) with
    | some don =>
      strat.mafia_kill g don.pid ((alivePlayers g).map (fun p => p.pid))
    | none =>
      pyMaxByCount (killSuggestions strat g) (pySetList (killSuggestions strat g))

/-- Kill resolution plus immediate death (`Game.night_phase` lines 275-299):
a resolved, alive target other than the sheriff dies at once; a sheriff
target's death is deferred to the end of the night. -/
def killStep (strat : Strategy) (g : GameState) : Option Nat × GameState :=
  match resolveKill strat g with
  | some k =>
    if isAlive g k then
      if (getPlayer g k).role = Role.SHERIFF then (some k, g)
      else (some k, setAlive g k false)
    else (some k, g)
  | none => (none, g)

/-- Candidate list for the don and sheriff checks (`Game.night_phase` lines
320 and 342): every player except the checker and the resolved kill target
(`p.pid != kill` is vacuous when no kill was resolved). -/
def checkCandidates (g : GameState) (checker : Nat) (kill : Option Nat) :
    List Nat :=
  (g.players.filter
      (fun p => ! (p.pid == checker) && ! (some p.pid == kill))).map
    (fun p => p.pid)

/-- The don's sheriff search (`Game.night_phase` lines 317-337); the
strategy-memory side effects carry no engine state. -/
def donStep (strat : Strategy) (g : GameState) (kill : Option Nat) :
    Option DonCheckResult :=
  match (alivePlayers g).find? (fun p => decide (p.role = Role.DON)) with
  | none => none
  | some d =>
    match strat.don_check g d.pid (checkCandidates g d.pid kill) with
    | none => none
    | some t => some ⟨d.pid, t, decide ((getPlayer g t).role = Role.SHERIFF)⟩

/-- The sheriff's investigation (`Game.night_phase` lines 339-355). -/
def sheriffStep (strat : Strategy) (g : GameState) (kill : Option Nat) :
    Option CheckResult :=
  match (alivePlayers g).find? (fun p => decide (p.role = Role.SHERIFF)) with
  | none => none
  | some s =>
    match strat.sheriff_check g s.pid (checkCandidates g s.pid kill) with
    | none => none
    | some t => some ⟨s.pid, t, (getPlayer g t).role.is_mafia⟩

/-- `Game.night_phase` (`src/mafia/game.py` lines 268-361): kill resolution
with the sheriff's deferred death, then the don check, then the sheriff
check, then the delayed kill application.  Event emissions are omitted. -/
def nightPhase (strat : Strategy) (g : GameState) : NightLog × GameState :=
  let ks := killStep strat g
  let dc := donStep strat ks.2 ks.1
  let sc := sheriffStep strat ks.2 ks.1
  let g2 :=
    match ks.1 with
    | some k => if isAlive ks.2 k then setAlive ks.2 k false else ks.2
    | none => ks.2
  (⟨sc, dc, ks.1⟩, g2)

/-- An alive pid is in range: out-of-range reads give the dead placeholder. -/
theorem lt_length_of_isAlive {g : GameState} {k : Nat}
    (h : isAlive g k = true) : k < g.players.length := by
  by_contra hk
  rw [isAlive, getPlayer, List.getD_eq_getElem?_getD,
    List.getElem?_eq_none (Nat.le_of_not_lt hk)] at h
  simp [defaultPlayer] at h

/-- Marking an alive pid dead makes `isAlive` false. -/
theorem isAlive_setAlive_false {g : GameState} {k : Nat}
    (h : isAlive g k = true) : isAlive (setAlive g k false) k = false := by
  have hlt := lt_length_of_isAlive h
  unfold isAlive setAlive getPlayer
  simp only [List.getD_eq_getElem?_getD, List.getElem?_set_self hlt]
  rfl

/-- C6: when the resolved night-kill target is the sheriff, the target stays
alive in the state handed to the don-check and sheriff-check steps (so the
sheriff still performs their own investigation, recorded with the sheriff as
checker) and dies only at the deferred-death step ending the night; a
resolved, alive target of any other role is marked dead immediately at kill
resolution. -/
theorem c6_sheriff_deferred_death (strat : Strategy) (g : GameState) (k : Nat)
    (hk : resolveKill strat g = some k) (halive : isAlive g k = true) :
    ((getPlayer g k).role = Role.SHERIFF →
      (killStep strat g).2 = g
      ∧ isAlive (killStep strat g).2 k = true
      ∧ isAlive (nightPhase strat g).2 k = false
      ∧ ((∀ p ∈ g.players, p.role = Role.SHERIFF → p.pid = k) →
          (nightPhase strat g).1.sheriff_check =
            match strat.sheriff_check g k (checkCandidates g k (some k)) with
            | none => none
            | some t => some ⟨k, t, (getPlayer g t).role.is_mafia⟩))
    ∧ ((getPlayer g k).role ≠ Role.SHERIFF →
        isAlive (killStep strat g).2 k = false) := by
  constructor
  · intro hrole
    have hks : killStep strat g = (some k, g) := by
      simp [killStep, hk, halive, hrole]
    have hdead : isAlive (nightPhase strat g).2 k = false := by
      simp only [nightPhase, hks]
      simp only [halive, if_true]
      exact isAlive_setAlive_false halive
    refine ⟨by rw [hks], by rw [hks]; exact halive, hdead, ?_⟩
    intro huniq
    have hmem : getPlayer g k ∈ alivePlayers g := by
      have hlt := lt_length_of_isAlive halive
      refine List.mem_filter.mpr ⟨?_, halive⟩
      rw [getPlayer, List.getD_eq_getElem?_getD, List.getElem?_eq_getElem hlt]
      exact List.getElem_mem hlt
    have hsome : ((alivePlayers g).find?
        (fun p => decide (p.role = Role.SHERIFF))).isSome := by
      rw [List.find?_isSome]
      exact ⟨getPlayer g k, hmem, by simp only [decide_eq_true_eq]; exact hrole⟩
    obtain ⟨x, hxeq⟩ := Option.isSome_iff_exists.mp hsome
    have hx_px := List.find?_some hxeq
    simp only [decide_eq_true_eq] at hx_px
    have hx_role : x.role = Role.SHERIFF := hx_px
    have hx_mem : x ∈ g.players :=
      (List.mem_filter.mp (List.mem_of_find?_eq_some hxeq)).1
    have hx_pid : x.pid = k := huniq x hx_mem hx_role
    simp only [nightPhase, hks]
    simp only [sheriffStep, hxeq, hx_pid]
  · intro hrole
    have hks : killStep strat g = (some k, setAlive g k false) := by
      simp [killStep, hk, halive, hrole]
    rw [hks]
    exact isAlive_setAlive_false halive

/-- Sheriff (pid 0), don (pid 1) and a civilian: the don kills the sheriff,
the sheriff still checks pid 1.  C6 witness state. -/
def c6State : GameState :=
  { players := [⟨0, Role.SHERIFF, true⟩, ⟨1, Role.DON, true⟩,
      ⟨2, Role.CIVILIAN, true⟩]
    history := []
    day_start_pid := 0
    current_speeches := [] }

/-- Oracle for the C6 witness: the kill targets pid 0, the sheriff checks
pid 1. -/
def c6Strategy : Strategy :=
  { speak := fun _ _ => ⟨none, []⟩
    last_words := fun _ _ => ⟨none, []⟩
    vote := fun _ _ _ _ => none
    vote_elimination := fun _ _ _ => false
    mafia_kill := fun _ _ _ => some 0
    don_check := fun _ _ _ => none
    sheriff_check := fun _ _ _ => some 1 }

/-- Witness for C6: the sheriff targeted at night is alive after kill
resolution, dead after the full night, and their final check (of the don) is
recorded. -/
theorem c6_sheriff_deferred_death_witness :
    isAlive (killStep c6Strategy c6State).2 0 = true
    ∧ isAlive (nightPhase c6Strategy c6State).2 0 = false
    ∧ (nightPhase c6Strategy c6State).1.sheriff_check = some ⟨0, 1, true⟩ := by
  have h := (c6_sheriff_deferred_death c6Strategy c6State 0 (by decide)
    (by decide)).1 (by decide)
  refine ⟨h.2.1, h.2.2.1, ?_⟩
  rw [h.2.2.2 (by decide)]
  decide

/-! ### Properties of the set model on keys below 8

For keys below 8 a key's home slot is its own value in every table of at
least 8 slots, so insertion never probes, the table always maps slot `i` to
value `i`, and iteration enumerates the distinct keys in ascending order. -/

/-- Every occupied slot of the table holds its own index. -/
def SlotId (t : List (Option Nat)) : Prop :=
  ∀ i, (hi : i < t.length) → ∀ v, t[i] = some v → v = i

/-- A scan that starts on the key's own slot is decided by that slot. -/
theorem windowScan_start (t : List (Option Nat)) (x i n : Nat)
    (hsome : ∀ v, t.getD i none = some v → v = x) :
    windowScan t x i (n + 1)
      = match t.getD i none with
        | none => ProbeResult.empty i
        | some _ => ProbeResult.present := by
  rw [windowScan]
  cases hgd : t.getD i none with
  | none => rfl
  | some v =>
    have hvx := hsome v hgd
    simp [hgd, hvx]

/-- For a key below 8 in a slot-faithful table of length at least 8, the
probe is decided by the key's home slot: empty if free, present if the key
already sits there. -/
theorem setAddProbe_lt8 (t : List (Option Nat)) (x perturb fuel : Nat)
    (h8 : 8 ≤ t.length) (hs : SlotId t) (hx : x < 8) :
    setAddProbe t (t.length - 1) x (x % t.length) perturb (fuel + 1)
      = match t.getD x none with
        | none => ProbeResult.empty x
        | some _ => ProbeResult.present := by
  have hxlt : x < t.length := lt_of_lt_of_le hx h8
  have hmod : x % t.length = x := Nat.mod_eq_of_lt hxlt
  have hslot : ∀ v, t.getD x none = some v → v = x := by
    intro v hv
    rw [List.getD_eq_getElem?_getD, List.getElem?_eq_getElem hxlt] at hv
    exact hs x hxlt v hv
  have hw : ∀ n, windowScan t x x (n + 1)
      = match t.getD x none with
        | none => ProbeResult.empty x
        | some _ => ProbeResult.present := fun n => windowScan_start t x x n hslot
  rw [setAddProbe, hmod]
  by_cases h9 : x + 9 ≤ t.length - 1
  · rw [if_pos h9, hw 9]
    cases hgd : t.getD x none with
    | none => simp [hgd]
    | some v => simp [hgd]
  · rw [if_neg h9, hw 0]
    cases hgd : t.getD x none with
    | none => simp [hgd]
    | some v => simp [hgd]

/-- Membership after storing `x` in a free slot. -/
theorem mem_set_some_iff {t : List (Option Nat)} {x i : Nat}
    (hi : i < t.length) (hnone : t[i] = none) (v : Nat) :
    some v ∈ t.set i (some x) ↔ (some v ∈ t ∨ v = x) := by
  constructor
  · intro hmem
    obtain ⟨j, hj, hget⟩ := List.mem_iff_getElem.mp hmem
    rw [List.getElem_set] at hget
    by_cases hij : i = j
    · right
      rw [if_pos hij] at hget
      exact (Option.some_inj.mp hget).symm
    · left
      rw [if_neg hij] at hget
      rw [List.length_set] at hj
      exact hget ▸ List.getElem_mem hj
  · intro hmem
    rcases hmem with hv | hv
    · obtain ⟨j, hj, hget⟩ := List.mem_iff_getElem.mp hv
      have hij : i ≠ j := by
        intro he
        subst he
        rw [hnone] at hget
        exact Option.noConfusion hget
      refine List.mem_iff_getElem.mpr ⟨j, by simpa using hj, ?_⟩
      rw [List.getElem_set, if_neg hij]
      exact hget
    · subst hv
      refine List.mem_iff_getElem.mpr ⟨i, by simpa using hi, ?_⟩
      rw [List.getElem_set, if_pos rfl]

/-- Storing a key in its own slot keeps the table slot-faithful. -/
theorem slotId_set {t : List (Option Nat)} (hs : SlotId t) (x : Nat) :
    SlotId (t.set x (some x)) := by
  intro j hj v hget
  rw [List.getElem_set] at hget
  by_cases hxj : x = j
  · rw [if_pos hxj] at hget
    exact (Option.some_inj.mp hget).symm.trans hxj
  · rw [if_neg hxj] at hget
    exact hs j (by simpa using hj) v hget

/-- The size loop never shrinks its argument. -/
theorem newSizeLoop_ge (minused : Nat) :
    ∀ fuel cur, cur ≤ newSizeLoop minused fuel cur := by
  intro fuel
  induction fuel with
  | zero => intro cur; exact Nat.le_refl _
  | succ f ih =>
    intro cur
    rw [newSizeLoop]
    by_cases h : minused < cur
    · rw [if_pos h]
    · rw [if_neg h]
      calc cur ≤ cur * 2 := by omega
        _ ≤ newSizeLoop minused f (cur * 2) := ih _

/-- The grown table size is at least the minimum size 8. -/
theorem newSize_ge8 (minused : Nat) : 8 ≤ newSize minused :=
  newSizeLoop_ge minused 64 8

/-- One clean reinsertion of a key below 8: the table stays slot-faithful
and gains exactly that key. -/
theorem resizeStep_lt8 {ns : Nat} {acc : PySet} {x : Nat}
    (hlen : acc.table.length = ns) (h8 : 8 ≤ ns) (hs : SlotId acc.table)
    (hall : ∀ v, some v ∈ acc.table → v < 8) (hx : x < 8) :
    (resizeStep ns acc x).table.length = ns
    ∧ SlotId (resizeStep ns acc x).table
    ∧ (∀ v, some v ∈ (resizeStep ns acc x).table → v < 8)
    ∧ (∀ v, some v ∈ (resizeStep ns acc x).table ↔ (some v ∈ acc.table ∨ v = x)) := by
  subst hlen
  have hxlt : x < acc.table.length := lt_of_lt_of_le hx h8
  have hprobe : setAddProbe acc.table (acc.table.length - 1) x
      (x % acc.table.length) x (acc.table.length + 14)
      = match acc.table.getD x none with
        | none => ProbeResult.empty x
        | some _ => ProbeResult.present :=
    setAddProbe_lt8 acc.table x x (acc.table.length + 13) h8 hs hx
  have hgdx : acc.table.getD x none = acc.table[x] := by
    rw [List.getD_eq_getElem?_getD, List.getElem?_eq_getElem hxlt]
    rfl
  cases hslot : acc.table[x] with
  | none =>
    have hstep : resizeStep acc.table.length acc x
        = ⟨acc.table.set x (some x), acc.fill⟩ := by
      rw [resizeStep, hprobe, hgdx, hslot]
    rw [hstep]
    refine ⟨by simp, slotId_set hs x, ?_, ?_⟩
    · intro v hv
      rcases (mem_set_some_iff hxlt hslot v).mp hv with h | h
      · exact hall v h
      · exact h ▸ hx
    · intro v
      exact mem_set_some_iff hxlt hslot v
  | some w =>
    have hwx : w = x := hs x hxlt w hslot
    have hstep : resizeStep acc.table.length acc x = acc := by
      rw [resizeStep, hprobe, hgdx, hslot]
    rw [hstep]
    refine ⟨rfl, hs, hall, ?_⟩
    intro v
    constructor
    · intro hv; exact Or.inl hv
    · intro hv
      rcases hv with hv | hv
      · exact hv
      · subst hv
        subst hwx
        exact hslot ▸ List.getElem_mem hxlt

/-- Folding clean reinsertions of keys below 8 keeps the table
slot-faithful and adds exactly those keys. -/
theorem resizeFold_lt8 {ns : Nat} (h8 : 8 ≤ ns) :
    ∀ (keys : List Nat), (∀ k ∈ keys, k < 8) →
    ∀ (acc : PySet), acc.table.length = ns → SlotId acc.table →
      (∀ v, some v ∈ acc.table → v < 8) →
      (keys.foldl (resizeStep ns) acc).table.length = ns
      ∧ SlotId (keys.foldl (resizeStep ns) acc).table
      ∧ (∀ v, some v ∈ (keys.foldl (resizeStep ns) acc).table → v < 8)
      ∧ (∀ v, some v ∈ (keys.foldl (resizeStep ns) acc).table
          ↔ (some v ∈ acc.table ∨ v ∈ keys)) := by
  intro keys
  induction keys with
  | nil =>
    intro _ acc hlen hs hall
    refine ⟨hlen, hs, hall, ?_⟩
    intro v
    simp
  | cons k rest ih =>
    intro hk acc hlen hs hall
    have hk8 : k < 8 := hk k (List.mem_cons_self k rest)
    obtain ⟨slen, sslot, sall, smem⟩ := resizeStep_lt8 hlen h8 hs hall hk8
    obtain ⟨flen, fslot, fall, fmem⟩ :=
      ih (fun x hx => hk x (List.mem_cons_of_mem k hx)) (resizeStep ns acc k)
        slen sslot sall
    refine ⟨flen, fslot, fall, ?_⟩
    intro v
    rw [List.foldl_cons] at *
    rw [fmem v, smem v]
    constructor
    · rintro ((h | h) | h)
      · exact Or.inl h
      · exact Or.inr (h ▸ List.mem_cons_self k rest)
      · exact Or.inr (List.mem_cons_of_mem k h)
    · rintro (h | h)
      · exact Or.inl (Or.inl h)
      · rcases List.mem_cons.mp h with h | h
        · exact Or.inl (Or.inr h)
        · exact Or.inr h

/-- Resizing a slot-faithful table of keys below 8 preserves its key set. -/
theorem pySetResize_lt8 {s : PySet} (h8 : 8 ≤ s.table.length)
    (hs : SlotId s.table) (hall : ∀ v, some v ∈ s.table → v < 8)
    (minused : Nat) :
    8 ≤ (pySetResize s minused).table.length
    ∧ SlotId (pySetResize s minused).table
    ∧ (∀ v, some v ∈ (pySetResize s minused).table → v < 8)
    ∧ (∀ v, some v ∈ (pySetResize s minused).table ↔ some v ∈ s.table) := by
  have hkeys : ∀ k ∈ s.table.filterMap id, k < 8 := by
    intro k hkm
    obtain ⟨o, ho, hid⟩ := List.mem_filterMap.mp hkm
    exact hall k (hid ▸ ho)
  have hinit_len : (List.replicate (newSize minused) none
      : List (Option Nat)).length = newSize minused := List.length_replicate ..
  have hinit_slot : SlotId (List.replicate (newSize minused) none) := by
    intro i hi v hv
    rw [List.getElem_replicate] at hv
    exact Option.noConfusion hv
  have hinit_all : ∀ v, some v ∈ (List.replicate (newSize minused) none
      : List (Option Nat)) → v < 8 := by
    intro v hv
    have := List.eq_of_mem_replicate hv
    exact Option.noConfusion this
  obtain ⟨flen, fslot, fall, fmem⟩ :=
    resizeFold_lt8 (newSize_ge8 minused) (s.table.filterMap id) hkeys
      ⟨List.replicate (newSize minused) none, s.fill⟩ hinit_len hinit_slot
      hinit_all
  have hlen2 : (pySetResize s minused).table.length = newSize minused := flen
  have hmem2 : ∀ v, some v ∈ (pySetResize s minused).table
      ↔ (some v ∈ (List.replicate (newSize minused) none : List (Option Nat))
          ∨ v ∈ s.table.filterMap id) := fmem
  refine ⟨by rw [hlen2]; exact newSize_ge8 minused, fslot, fall, ?_⟩
  intro v
  rw [hmem2 v]
  constructor
  · rintro (h | h)
    · exact absurd (List.eq_of_mem_replicate h) (by simp)
    · obtain ⟨o, ho, hid⟩ := List.mem_filterMap.mp h
      exact hid ▸ ho
  · intro h
    exact Or.inr (List.mem_filterMap.mpr ⟨some v, h, rfl⟩)

/-- Inserting a key below 8 keeps the table slot-faithful and adds exactly
that key. -/
theorem pySetAdd_lt8 {s : PySet} (h8 : 8 ≤ s.table.length)
    (hs : SlotId s.table) (hall : ∀ v, some v ∈ s.table → v < 8)
    {x : Nat} (hx : x < 8) :
    8 ≤ (pySetAdd s x).table.length
    ∧ SlotId (pySetAdd s x).table
    ∧ (∀ v, some v ∈ (pySetAdd s x).table → v < 8)
    ∧ (∀ v, some v ∈ (pySetAdd s x).table ↔ (some v ∈ s.table ∨ v = x)) := by
  have hxlt : x < s.table.length := lt_of_lt_of_le hx h8
  have hprobe : setAddProbe s.table (s.table.length - 1) x (x % s.table.length)
      x (s.table.length + 14)
      = match s.table.getD x none with
        | none => ProbeResult.empty x
        | some _ => ProbeResult.present :=
    setAddProbe_lt8 s.table x x (s.table.length + 13) h8 hs hx
  have hgdx : s.table.getD x none = s.table[x] := by
    rw [List.getD_eq_getElem?_getD, List.getElem?_eq_getElem hxlt]
    rfl
  cases hslot : s.table[x] with
  | some w =>
    have hwx : w = x := hs x hxlt w hslot
    have hstep : pySetAdd s x = s := by
      simp only [pySetAdd, hprobe, hgdx, hslot]
    rw [hstep]
    refine ⟨h8, hs, hall, ?_⟩
    intro v
    constructor
    · exact fun hv => Or.inl hv
    · rintro (hv | hv)
      · exact hv
      · subst hv
        subst hwx
        exact hslot ▸ List.getElem_mem hxlt
  | none =>
    have hset_len : (s.table.set x (some x)).length = s.table.length := by simp
    have hset_slot : SlotId (s.table.set x (some x)) := slotId_set hs x
    have hset_all : ∀ v, some v ∈ s.table.set x (some x) → v < 8 := by
      intro v hv
      rcases (mem_set_some_iff hxlt hslot v).mp hv with h | h
      · exact hall v h
      · exact h ▸ hx
    have hset_mem : ∀ v, some v ∈ s.table.set x (some x)
        ↔ (some v ∈ s.table ∨ v = x) := fun v => mem_set_some_iff hxlt hslot v
    by_cases hgrow : (s.table.length - 1) * 3 ≤ (s.fill + 1) * 5
    · have hstep : pySetAdd s x
          = pySetResize ⟨s.table.set x (some x), s.fill + 1⟩ ((s.fill + 1) * 4) := by
        simp only [pySetAdd, hprobe, hgdx, hslot]
        rw [if_pos hgrow]
      obtain ⟨rlen, rslot, rall, rmem⟩ :=
        pySetResize_lt8 (s := ⟨s.table.set x (some x), s.fill + 1⟩)
          (by rw [show (⟨s.table.set x (some x), s.fill + 1⟩ : PySet).table
              = s.table.set x (some x) from rfl, hset_len]; exact h8)
          hset_slot hset_all ((s.fill + 1) * 4)
      rw [hstep]
      exact ⟨rlen, rslot, rall, fun v => (rmem v).trans (hset_mem v)⟩
    · have hstep : pySetAdd s x = ⟨s.table.set x (some x), s.fill + 1⟩ := by
        simp only [pySetAdd, hprobe, hgdx, hslot]
        rw [if_neg hgrow]
      rw [hstep]
      exact ⟨by rw [show (⟨s.table.set x (some x), s.fill + 1⟩ : PySet).table
          = s.table.set x (some x) from rfl, hset_len]; exact h8,
        hset_slot, hset_all, hset_mem⟩

/-- Folding keys below 8 into a slot-faithful table adds exactly those
keys. -/
theorem pySetFold_lt8 :
    ∀ (xs : List Nat), (∀ x ∈ xs, x < 8) →
    ∀ (acc : PySet), 8 ≤ acc.table.length → SlotId acc.table →
      (∀ v, some v ∈ acc.table → v < 8) →
      8 ≤ (xs.foldl pySetAdd acc).table.length
      ∧ SlotId (xs.foldl pySetAdd acc).table
      ∧ (∀ v, some v ∈ (xs.foldl pySetAdd acc).table → v < 8)
      ∧ (∀ v, some v ∈ (xs.foldl pySetAdd acc).table
          ↔ (some v ∈ acc.table ∨ v ∈ xs)) := by
  intro xs
  induction xs with
  | nil =>
    intro _ acc h8 hs hall
    exact ⟨h8, hs, hall, by simp⟩
  | cons x rest ih =>
    intro hxs acc h8 hs hall
    obtain ⟨alen, aslot, aall, amem⟩ :=
      pySetAdd_lt8 h8 hs hall (hxs x (List.mem_cons_self x rest))
    obtain ⟨flen, fslot, fall, fmem⟩ :=
      ih (fun y hy => hxs y (List.mem_cons_of_mem x hy)) (pySetAdd acc x)
        alen aslot aall
    refine ⟨flen, fslot, fall, ?_⟩
    intro v
    rw [List.foldl_cons, fmem v, amem v]
    constructor
    · rintro ((h | h) | h)
      · exact Or.inl h
      · exact Or.inr (h ▸ List.mem_cons_self x rest)
      · exact Or.inr (List.mem_cons_of_mem x h)
    · rintro (h | h)
      · exact Or.inl (Or.inl h)
      · rcases List.mem_cons.mp h with h | h
        · exact Or.inl (Or.inr h)
        · exact Or.inr h

/-- Reading a slot-faithful table in slot order yields a strictly ascending
key list. -/
theorem filterMap_slotId_pairwise :
    ∀ (t : List (Option Nat)) (off : Nat),
      (∀ i, (hi : i < t.length) → ∀ v, t[i] = some v → v = off + i) →
      (t.filterMap id).Pairwise (fun a b => a < b) := by
  intro t
  induction t with
  | nil => intro off _; simp
  | cons a t' ih =>
    intro off hp
    cases a with
    | none =>
      rw [show List.filterMap id (none :: t') = List.filterMap id t' from
        List.filterMap_cons_none rfl]
      refine ih (off + 1) ?_
      intro i hi v hv
      have := hp (i + 1) (by simpa using Nat.succ_lt_succ hi) v (by simpa using hv)
      omega
    | some w =>
      have hw : w = off := by
        have := hp 0 (by simp) w (by simp)
        omega
      rw [show List.filterMap id (some w :: t') = w :: List.filterMap id t' from
        List.filterMap_cons_some rfl]
      refine List.Pairwise.cons ?_ (ih (off + 1) ?_)
      · intro b hb
        obtain ⟨o, ho, hid⟩ := List.mem_filterMap.mp hb
        obtain ⟨j, hj, hjget⟩ :=
          List.mem_iff_getElem.mp ((show o = some b from hid) ▸ ho)
        have := hp (j + 1) (by simpa using Nat.succ_lt_succ hj) b (by simpa using hjget)
        omega
      · intro i hi v hv
        have := hp (i + 1) (by simpa using Nat.succ_lt_succ hi) v (by simpa using hv)
        omega

/-- For proposal lists with all targets below 8, the modelled CPython set
iterates the distinct targets in strictly ascending order. -/
theorem pySetList_lt8 (xs : List Nat) (hxs : ∀ x ∈ xs, x < 8) :
    (pySetList xs).Pairwise (fun a b => a < b)
    ∧ ∀ v, v ∈ pySetList xs ↔ v ∈ xs := by
  have hinit8 : 8 ≤ (⟨List.replicate 8 none, 0⟩ : PySet).table.length := by simp
  have hinit_slot : SlotId (⟨List.replicate 8 none, 0⟩ : PySet).table := by
    intro i hi v hv
    rw [List.getElem_replicate] at hv
    exact Option.noConfusion hv
  have hinit_all : ∀ v, some v ∈ (⟨List.replicate 8 none, 0⟩ : PySet).table
      → v < 8 := by
    intro v hv
    exact Option.noConfusion (List.eq_of_mem_replicate hv)
  obtain ⟨flen, fslot, fall, fmem⟩ :=
    pySetFold_lt8 xs hxs _ hinit8 hinit_slot hinit_all
  constructor
  · refine filterMap_slotId_pairwise _ 0 ?_
    intro i hi v hv
    have := fslot i hi v hv
    omega
  · intro v
    rw [pySetList, List.mem_filterMap]
    constructor
    · rintro ⟨o, ho, hid⟩
      rcases (fmem v).mp ((show o = some v from hid) ▸ ho) with h | h
      · exact absurd (List.eq_of_mem_replicate h) (by simp)
      · exact h
    · intro hv
      exact ⟨some v, (fmem v).mpr (Or.inr hv), rfl⟩

/-- Python's `max` with a key over a strictly ascending list returns the
least element attaining the maximal key: ties keep the earlier element, and
earlier means smaller. -/
theorem pyMaxByCount_least_max (xs : List Nat) :
    ∀ (ys : List Nat) (y : Nat), (y :: ys).Pairwise (fun a b => a < b) →
      ∃ r, pyMaxByCount xs (y :: ys) = some r
        ∧ r ∈ y :: ys
        ∧ (∀ z ∈ y :: ys, xs.count z ≤ xs.count r)
        ∧ (∀ z ∈ y :: ys, xs.count z = xs.count r → r ≤ z) := by
  intro ys
  induction ys with
  | nil =>
    intro y _
    refine ⟨y, rfl, by simp, ?_, ?_⟩
    · intro z hz
      rw [List.mem_singleton.mp hz]
    · intro z hz _
      rw [List.mem_singleton.mp hz]
  | cons z' ys' ih =>
    intro y hp
    obtain ⟨hy_lt, hp'⟩ := List.pairwise_cons.mp hp
    by_cases hcmp : xs.count y < xs.count z'
    · obtain ⟨r, hr_eq, hr_mem, hr_max, hr_least⟩ := ih z' hp'
      refine ⟨r, ?_, ?_, ?_, ?_⟩
      · rw [show pyMaxByCount xs (y :: z' :: ys') = pyMaxByCount xs (z' :: ys')
          from by simp [pyMaxByCount, hcmp]]
        exact hr_eq
      · exact List.mem_cons_of_mem y hr_mem
      · intro z hz
        rcases List.mem_cons.mp hz with hz | hz
        · subst hz
          exact le_of_lt (lt_of_lt_of_le hcmp (hr_max z' (List.mem_cons_self z' ys')))
        · exact hr_max z hz
      · intro z hz hcnt
        rcases List.mem_cons.mp hz with hz | hz
        · subst hz
          have := hr_max z' (List.mem_cons_self z' ys')
          omega
        · exact hr_least z hz hcnt
    · have hyp'' : (y :: ys').Pairwise (fun a b => a < b) := by
        refine List.Pairwise.cons ?_ (List.Pairwise.of_cons hp')
        intro b hb
        exact hy_lt b (List.mem_cons_of_mem z' hb)
      obtain ⟨r, hr_eq, hr_mem, hr_max, hr_least⟩ := ih y hyp''
      refine ⟨r, ?_, ?_, ?_, ?_⟩
      · rw [show pyMaxByCount xs (y :: z' :: ys') = pyMaxByCount xs (y :: ys')
          from by simp [pyMaxByCount, hcmp]]
        exact hr_eq
      · rcases List.mem_cons.mp hr_mem with h | h
        · exact h ▸ List.mem_cons_self y (z' :: ys')
        · exact List.mem_cons_of_mem y (List.mem_cons_of_mem z' h)
      · intro z hz
        rcases List.mem_cons.mp hz with hz | hz
        · exact hr_max z (hz ▸ List.mem_cons_self y ys')
        · rcases List.mem_cons.mp hz with hz | hz
          · subst hz
            have := hr_max y (List.mem_cons_self y ys')
            omega
          · exact hr_max z (List.mem_cons_of_mem y hz)
      · intro z hz hcnt
        rcases List.mem_cons.mp hz with hz | hz
        · exact hr_least z (hz ▸ List.mem_cons_self y ys') hcnt
        · rcases List.mem_cons.mp hz with hz | hz
          · subst hz
            have hy_max := hr_max y (List.mem_cons_self y ys')
            have hyr : xs.count y = xs.count r := by omega
            have := hr_least y (List.mem_cons_self y ys') hyr
            have := hy_lt z (List.mem_cons_self z ys')
            omega
          · exact hr_least z (List.mem_cons_of_mem y hz) hcnt

/-- The resolved kill equals the kill field of the night log. -/
theorem killStep_fst (strat : Strategy) (g : GameState) :
    (killStep strat g).1 = resolveKill strat g := by
  cases h : resolveKill strat g with
  | none => simp [killStep, h]
  | some k =>
    simp only [killStep, h]
    split
    · split
      · rfl
      · rfl
    · rfl

/-- C7 (amended): in a night with alive mafia but no alive don and at least
one non-null kill proposal, when every proposed target id is below 8 the
resolved kill exists and is the most frequently proposed target, with ties
broken towards the lowest proposed id; for larger ids the tie-break follows
the runtime set's iteration order instead (see the counterexample). -/
theorem c7_no_don_kill_mode (strat : Strategy) (g : GameState)
    (hmaf : mafiaAlive g ≠ [])
    (hnodon : ∀ p ∈ mafiaAlive g, p.role ≠ Role.DON)
    (hs : killSuggestions strat g ≠ [])
    (hlt : ∀ x ∈ killSuggestions strat g, x < 8) :
    resolveKill strat g ≠ none
    ∧ ∀ k, resolveKill strat g = some k →
        ((nightPhase strat g).1.kill = some k
         ∧ k ∈ killSuggestions strat g
         ∧ (∀ y ∈ killSuggestions strat g,
             (killSuggestions strat g).count y
               ≤ (killSuggestions strat g).count k)
         ∧ (∀ y ∈ killSuggestions strat g,
             (killSuggestions strat g).count y
               = (killSuggestions strat g).count k → k ≤ y)) := by
  have hempty : (mafiaAlive g).isEmpty = false := by
    cases hm : mafiaAlive g with
    | nil => exact absurd hm hmaf
    | cons a l => rfl
  have hfind : (mafiaAlive g).find? (fun p => decide (p.role = Role.DON))
      = none := by
    rw [List.find?_eq_none]
    intro p hp
    simp only [decide_eq_true_eq]
    exact hnodon p hp
  have hres : resolveKill strat g
      = pyMaxByCount (killSuggestions strat g)
          (pySetList (killSuggestions strat g)) := by
    simp [resolveKill, hempty, hfind]
  obtain ⟨hpair, hmemiff⟩ := pySetList_lt8 (killSuggestions strat g) hlt
  cases hl : pySetList (killSuggestions strat g) with
  | nil =>
    exfalso
    cases hsuf : killSuggestions strat g with
    | nil => exact hs hsuf
    | cons a l =>
      have ha : a ∈ pySetList (killSuggestions strat g) :=
        (hmemiff a).mpr (by rw [hsuf]; exact List.mem_cons_self a l)
      rw [hl] at ha
      exact List.not_mem_nil a ha
  | cons y ys =>
    rw [hl] at hpair
    obtain ⟨r, hr_eq, hr_mem, hr_max, hr_least⟩ :=
      pyMaxByCount_least_max (killSuggestions strat g) ys y hpair
    have hres2 : resolveKill strat g = some r := by rw [hres, hl, hr_eq]
    constructor
    · rw [hres2]
      exact fun h => Option.noConfusion h
    · intro k hk
      have hkr : k = r := by
        rw [hres2] at hk
        exact (Option.some_inj.mp hk).symm
      subst hkr
      refine ⟨?_, ?_, ?_, ?_⟩
      · have hkill : (nightPhase strat g).1.kill = (killStep strat g).1 := rfl
        rw [hkill, killStep_fst, hres2]
      · have hrm : k ∈ pySetList (killSuggestions strat g) := by
          rw [hl]
          exact hr_mem
        exact (hmemiff k).mp hrm
      · intro z hz
        have hzm : z ∈ pySetList (killSuggestions strat g) := (hmemiff z).mpr hz
        rw [hl] at hzm
        exact hr_max z hzm
      · intro z hz hcnt
        have hzm : z ∈ pySetList (killSuggestions strat g) := (hmemiff z).mpr hz
        rw [hl] at hzm
        exact hr_least z hzm hcnt

/-- Ten-player roster with a dead don, two alive mafia and a pid-8 player:
the C7 counterexample (and witness) state. -/
def c7xState : GameState :=
  { players := [⟨0, Role.SHERIFF, true⟩, ⟨1, Role.MAFIA, true⟩,
      ⟨2, Role.MAFIA, true⟩, ⟨3, Role.DON, false⟩, ⟨4, Role.CIVILIAN, true⟩,
      ⟨5, Role.CIVILIAN, true⟩, ⟨6, Role.CIVILIAN, true⟩,
      ⟨7, Role.CIVILIAN, true⟩, ⟨8, Role.CIVILIAN, true⟩,
      ⟨9, Role.CIVILIAN, true⟩]
    history := []
    day_start_pid := 0
    current_speeches := [] }

/-- Oracle for the C7 counterexample: mafia 1 proposes target 8, mafia 2
proposes target 1. -/
def c7xStrategy : Strategy :=
  { speak := fun _ _ => ⟨none, []⟩
    last_words := fun _ _ => ⟨none, []⟩
    vote := fun _ _ _ _ => none
    vote_elimination := fun _ _ _ => false
    mafia_kill := fun _ pid _ =>
      if pid = 1 then some 8 else if pid = 2 then some 1 else none
    don_check := fun _ _ _ => none
    sheriff_check := fun _ _ _ => none }

/-- C7 counterexample: with no alive don, proposals `[8, 1]` are tied (each
proposed once), yet the resolved kill is 8, not the lowest tied proposal 1 —
`max(set(...), key=count)` follows the set's iteration order, in which 8
(slot 0 of the 8-slot table) precedes 1. -/
theorem c7_no_don_kill_mode_counterexample :
    (∀ p ∈ mafiaAlive c7xState, p.role ≠ Role.DON)
    ∧ mafiaAlive c7xState ≠ []
    ∧ killSuggestions c7xStrategy c7xState = [8, 1]
    ∧ (killSuggestions c7xStrategy c7xState).count 8
      = (killSuggestions c7xStrategy c7xState).count 1
    ∧ (nightPhase c7xStrategy c7xState).1.kill = some 8
    ∧ (nightPhase c7xStrategy c7xState).1.kill ≠ some 1 := by
  refine ⟨by decide, by decide, by decide, by decide, by decide, by decide⟩

/-- Oracle for the C7 witness: mafia 1 proposes target 4, mafia 2 proposes
target 1, all ids below 8. -/
def c7wStrategy : Strategy :=
  { speak := fun _ _ => ⟨none, []⟩
    last_words := fun _ _ => ⟨none, []⟩
    vote := fun _ _ _ _ => none
    vote_elimination := fun _ _ _ => false
    mafia_kill := fun _ pid _ =>
      if pid = 1 then some 4 else if pid = 2 then some 1 else none
    don_check := fun _ _ _ => none
    sheriff_check := fun _ _ _ => none }

/-- Witness for the amended C7: tied proposals `[4, 1]`, all below 8,
resolve to the lowest tied id 1. -/
theorem c7_no_don_kill_mode_witness :
    (nightPhase c7wStrategy c7xState).1.kill = some 1
    ∧ 1 ∈ killSuggestions c7wStrategy c7xState
    ∧ (∀ y ∈ killSuggestions c7wStrategy c7xState,
        (killSuggestions c7wStrategy c7xState).count y
          ≤ (killSuggestions c7wStrategy c7xState).count 1) := by
  have h := (c7_no_don_kill_mode c7wStrategy c7xState (by decide) (by decide)
    (by decide) (by decide)).2 1 (by decide)
  exact ⟨h.1, h.2.1, h.2.2.1⟩

/-- `Game.history_for` (`src/mafia/game.py` lines 364-388): a freshly built
copy of the history where each round's night section keeps the kill but
nulls the sheriff check unless the requester is the sheriff, and nulls the
don check unless the requester is the don; day sections are copied
unchanged. -/
def historyFor (g : GameState) (pid : Nat) : List RoundLog :=
  let role := (getPlayer g pid).role
  g.history.map (fun rl =>
    { day := rl.day
      night :=
        match rl.night with
        | none => none
        | some n =>
          some { sheriff_check :=
                   if role = Role.SHERIFF then n.sheriff_check else none
                 don_check := if role = Role.DON then n.don_check else none
                 kill := n.kill } })

/-- C8: the redacted view has the same number of rounds, keeps every day
section and night kill unchanged, populates the sheriff-check field only for
a SHERIFF requester (null otherwise) and the don-check field only for a DON
requester (null otherwise), and is a pure function of the full history and
the requester's role. -/
theorem c8_history_redaction (g : GameState) (pid : Nat) :
    (historyFor g pid).length = g.history.length
    ∧ List.Forall₂
        (fun v o => v.day = o.day
          ∧ v.night.map (fun n => n.kill) = o.night.map (fun n => n.kill))
        (historyFor g pid) g.history
    ∧ (∀ rl ∈ historyFor g pid, ∀ nl, rl.night = some nl →
        (nl.sheriff_check ≠ none → (getPlayer g pid).role = Role.SHERIFF)
        ∧ (nl.don_check ≠ none → (getPlayer g pid).role = Role.DON))
    ∧ ((getPlayer g pid).role ≠ Role.SHERIFF →
        ∀ rl ∈ historyFor g pid, ∀ nl, rl.night = some nl →
          nl.sheriff_check = none)
    ∧ ((getPlayer g pid).role ≠ Role.DON →
        ∀ rl ∈ historyFor g pid, ∀ nl, rl.night = some nl →
          nl.don_check = none)
    ∧ (∀ (g2 : GameState) (pid2 : Nat), g2.history = g.history →
        (getPlayer g2 pid2).role = (getPlayer g pid).role →
        historyFor g2 pid2 = historyFor g pid) := by
  refine ⟨by simp [historyFor], ?_, ?_, ?_, ?_, ?_⟩
  · rw [historyFor]
    rw [List.forall₂_map_left_iff]
    rw [List.forall₂_same]
    intro rl _
    refine ⟨rfl, ?_⟩
    cases rl.night with
    | none => rfl
    | some n => rfl
  · intro rl hrl nl hnl
    obtain ⟨o, _, ho⟩ := List.mem_map.mp hrl
    subst ho
    cases hon : o.night with
    | none => rw [hon] at hnl; exact Option.noConfusion hnl
    | some n =>
      rw [hon] at hnl
      have hnl2 := Option.some_inj.mp hnl
      subst hnl2
      constructor
      · intro hne
        by_cases hrole : (getPlayer g pid).role = Role.SHERIFF
        · exact hrole
        · exact absurd (if_neg hrole) hne
      · intro hne
        by_cases hrole : (getPlayer g pid).role = Role.DON
        · exact hrole
        · exact absurd (if_neg hrole) hne
  · intro hrole rl hrl nl hnl
    obtain ⟨o, _, ho⟩ := List.mem_map.mp hrl
    subst ho
    cases hon : o.night with
    | none => rw [hon] at hnl; exact Option.noConfusion hnl
    | some n =>
      rw [hon] at hnl
      have hnl2 := Option.some_inj.mp hnl
      subst hnl2
      exact if_neg hrole
  · intro hrole rl hrl nl hnl
    obtain ⟨o, _, ho⟩ := List.mem_map.mp hrl
    subst ho
    cases hon : o.night with
    | none => rw [hon] at hnl; exact Option.noConfusion hnl
    | some n =>
      rw [hon] at hnl
      have hnl2 := Option.some_inj.mp hnl
      subst hnl2
      exact if_neg hrole
  · intro g2 pid2 hh hr
    rw [historyFor, historyFor, hh, hr]

/-- History with one full round, used as the C8 witness: a sheriff check of
player 1 and a don check of player 0 were made, the kill was player 2. -/
def c8State : GameState :=
  { players := [⟨0, Role.SHERIFF, true⟩, ⟨1, Role.DON, true⟩,
      ⟨2, Role.CIVILIAN, false⟩]
    history := [⟨⟨[], [], none⟩,
      some ⟨some ⟨0, 1, true⟩, some ⟨1, 0, true⟩, some 2⟩⟩]
    day_start_pid := 0
    current_speeches := [] }

/-- Witness for C8: the civilian requester (pid 2) sees the kill but neither
check; the redacted view keeps one round. -/
theorem c8_history_redaction_witness :
    (historyFor c8State 2).length = 1
    ∧ (∀ rl ∈ historyFor c8State 2, ∀ nl, rl.night = some nl →
        nl.sheriff_check = none)
    ∧ historyFor c8State 2
      = [⟨⟨[], [], none⟩, some ⟨none, none, some 2⟩⟩] := by
  have h := c8_history_redaction c8State 2
  refine ⟨by rw [h.1]; rfl, h.2.2.2.1 (by decide), by decide⟩

/-! ### Rotation pointer -/

/-- Dense pids (spec §3): the player at index `i` has pid `i`. -/
def PidsDense (l : List Player) : Prop :=
  ∀ i, (hi : i < l.length) → l[i].pid = i

/-- A dense player list has strictly increasing pids. -/
theorem pidsDense_pairwise {l : List Player} (h : PidsDense l) :
    l.Pairwise (fun a b => a.pid < b.pid) := by
  rw [List.pairwise_iff_get]
  intro i j hij
  rw [List.get_eq_getElem, List.get_eq_getElem, h i.1 i.2, h j.1 j.2]
  exact hij

/-- Tie speeches never change the player list. -/
theorem tieSpeechFold_players (strat : Strategy) (top : List Nat) :
    ∀ (l : List Nat) (g : GameState) (sps : List SpeechLog),
      (tieSpeechFold strat top l g sps).1.players = g.players := by
  intro l
  induction l with
  | nil => intro g sps; rfl
  | cons a t ih =>
    intro g sps
    by_cases ha : top.contains a
    · simp only [tieSpeechFold, ha, if_true]
      exact ih _ _
    · simp only [tieSpeechFold, ha, if_false]
      exact ih _ _

/-- The voting loop never changes the player list. -/
theorem votingLoop_state_players (strat : Strategy) (noms : List Nat) :
    ∀ (fuel : Nat) (c : List Nat) (prev : Option (List Nat)) (g : GameState)
      (sps : List SpeechLog) (votes : List Vote),
      (votingLoop strat noms fuel c prev g sps votes).state.players
        = g.players := by
  intro fuel
  induction fuel with
  | zero =>
    intro c prev g sps votes
    cases c with
    | nil => rfl
    | cons a t => rfl
  | succ f ih =>
    intro c prev g sps votes
    cases c with
    | nil => rfl
    | cons a t =>
      simp only [votingLoop]
      split
      · rfl
      · split
        · split
          · exact tieSpeechFold_players strat _ _ _ _
          · exact tieSpeechFold_players strat _ _ _ _
        · rw [ih]
          exact tieSpeechFold_players strat _ _ _ _

/-- The voting stage never changes the player list. -/
theorem dayVoting_state_players (strat : Strategy) (day_no : Nat)
    (s : SpeechStageResult) :
    (dayVoting strat day_no s).state.players = s.state.players := by
  rw [dayVoting]
  split
  · rfl
  · exact votingLoop_state_players strat _ _ _ _ _ _ _

/-- Last words never change the player list. -/
theorem lastWordsFold_players (strat : Strategy) :
    ∀ (l : List Nat) (g : GameState) (sps : List SpeechLog),
      (lastWordsFold strat l g sps).1.players = g.players := by
  intro l
  induction l with
  | nil => intro g sps; rfl
  | cons a t ih =>
    intro g sps
    simp only [lastWordsFold]
    exact ih _ _

/-- Marking a player dead keeps pids dense. -/
theorem pidsDense_setAlive {g : GameState} (h : PidsDense g.players)
    (pid : Nat) (b : Bool) : PidsDense (setAlive g pid b).players := by
  intro i hi
  have hi2 : i < g.players.length := by
    have : (setAlive g pid b).players.length = g.players.length := by
      show (g.players.set pid { getPlayer g pid with alive := b }).length = _
      exact List.length_set ..
    rw [this] at hi
    exact hi
  show (g.players.set pid { getPlayer g pid with alive := b })[i].pid = i
  rw [List.getElem_set]
  by_cases hpi : pid = i
  · rw [if_pos hpi]
    show (getPlayer g pid).pid = i
    rw [getPlayer, List.getD_eq_getElem?_getD,
      List.getElem?_eq_getElem (hpi ▸ hi2 : pid < g.players.length)]
    exact hpi ▸ h pid (hpi ▸ hi2)
  · rw [if_neg hpi]
    exact h i hi2

/-- Applying eliminations keeps pids dense. -/
theorem pidsDense_foldl_setAlive :
    ∀ (l : List Nat) (g : GameState), PidsDense g.players →
      PidsDense ((l.foldl (fun h2 pid => setAlive h2 pid false) g).players) := by
  intro l
  induction l with
  | nil => intro g h; exact h
  | cons a t ih =>
    intro g h
    exact ih _ (pidsDense_setAlive h a false)

/-- The pre-rotation state still has dense pids. -/
theorem dayMid_players_dense (strat : Strategy) (day_no : Nat) (g : GameState)
    (hd : PidsDense g.players) : PidsDense (dayMid strat day_no g).players := by
  have h1 : (dayMid strat day_no g).players
      = ((dayVoting strat day_no (speechStage strat g)).eliminated.foldl
          (fun h2 pid => setAlive h2 pid false)
          (dayVoting strat day_no (speechStage strat g)).state).players :=
    lastWordsFold_players strat _ _ _
  have h2 : PidsDense (dayVoting strat day_no (speechStage strat g)).state.players := by
    rw [dayVoting_state_players, speechStage_players]
    exact hd
  rw [h1]
  exact pidsDense_foldl_setAlive _ _ h2

/-- `next(...)` is the head of the filtered list. -/
theorem find?_eq_filter_head? {α : Type} (pr : α → Bool) :
    ∀ l : List α, l.find? pr = (l.filter pr).head? := by
  intro l
  induction l with
  | nil => rfl
  | cons a t ih =>
    by_cases ha : pr a
    · rw [List.find?_cons_of_pos t ha, List.filter_cons_of_pos ha]
      rfl
    · rw [List.find?_cons_of_neg t ha, List.filter_cons_of_neg ha]
      exact ih

/-- On a pid-ascending list, the head of a filter is the matching player
with the least pid. -/
theorem filter_head?_least (pr : Player → Bool) :
    ∀ (l : List Player), l.Pairwise (fun a b => a.pid < b.pid) →
    ∀ x, (l.filter pr).head? = some x →
      x ∈ l ∧ pr x = true ∧ ∀ q ∈ l, pr q = true → x.pid ≤ q.pid := by
  intro l
  induction l with
  | nil => intro _ x hx; exact Option.noConfusion hx
  | cons a t ih =>
    intro hpw x hx
    obtain ⟨hlt, hpw2⟩ := List.pairwise_cons.mp hpw
    by_cases ha : pr a
    · rw [List.filter_cons_of_pos ha] at hx
      have hxa : x = a := (Option.some_inj.mp hx).symm
      subst hxa
      refine ⟨List.mem_cons_self x t, ha, ?_⟩
      intro q hq _
      rcases List.mem_cons.mp hq with h | h
      · rw [h]
      · exact le_of_lt (hlt q h)
    · rw [List.filter_cons_of_neg ha] at hx
      obtain ⟨hxm, hxpr, hleast⟩ := ih hpw2 x hx
      refine ⟨List.mem_cons_of_mem a hxm, hxpr, ?_⟩
      intro q hq hqpr
      rcases List.mem_cons.mp hq with h | h
      · subst h
        exact absurd hqpr ha
      · exact hleast q h hqpr

/-- Characterization of the rotation-pointer computation on a dense player
list: it is the least alive pid at least one past the first speaker, else
the least alive pid. -/
theorem nextDayStart_spec {G : GameState} (hd : PidsDense G.players)
    (first : Player) :
    ((∃ p ∈ G.players, p.alive = true ∧ first.pid + 1 ≤ p.pid) →
      ∃ p ∈ G.players, p.alive = true ∧ first.pid + 1 ≤ p.pid
        ∧ nextDayStart G first = p.pid
        ∧ ∀ q ∈ G.players, q.alive = true → first.pid + 1 ≤ q.pid →
            p.pid ≤ q.pid)
    ∧ ((∀ p ∈ G.players, p.alive = true → p.pid < first.pid + 1) →
        (∃ p ∈ G.players, p.alive = true) →
        ∃ p ∈ G.players, p.alive = true ∧ nextDayStart G first = p.pid
          ∧ ∀ q ∈ G.players, q.alive = true → p.pid ≤ q.pid) := by
  have hpw := pidsDense_pairwise hd
  constructor
  · rintro ⟨p0, hp0m, hp0a, hp0ge⟩
    have hp0f : p0 ∈ G.players.filter
        (fun p => p.alive && decide (first.pid + 1 ≤ p.pid)) := by
      rw [List.mem_filter]
      exact ⟨hp0m, by simp [hp0a, hp0ge]⟩
    cases hh : (G.players.filter
        (fun p => p.alive && decide (first.pid + 1 ≤ p.pid))).head? with
    | none =>
      rw [List.head?_eq_none_iff] at hh
      rw [hh] at hp0f
      exact absurd hp0f (List.not_mem_nil p0)
    | some x =>
      obtain ⟨hxm, hxpr, hleast⟩ := filter_head?_least _ _ hpw x hh
      simp only [Bool.and_eq_true, decide_eq_true_eq] at hxpr
      refine ⟨x, hxm, hxpr.1, hxpr.2, ?_, ?_⟩
      · simp only [nextDayStart, hh]
      · intro q hq hqa hqge
        exact hleast q hq (by simp [hqa, hqge])
  · intro hnone hex
    obtain ⟨p0, hp0m, hp0a⟩ := hex
    have hempty : (G.players.filter
        (fun p => p.alive && decide (first.pid + 1 ≤ p.pid))).head? = none := by
      rw [List.head?_eq_none_iff, List.filter_eq_nil_iff]
      intro a ha
      simp only [Bool.and_eq_true, decide_eq_true_eq, not_and]
      intro haa
      have := hnone a ha haa
      omega
    have hp0f : p0 ∈ G.players.filter (fun p => p.alive) :=
      List.mem_filter.mpr ⟨hp0m, hp0a⟩
    cases hh2 : (G.players.filter (fun p => p.alive)).head? with
    | none =>
      rw [List.head?_eq_none_iff] at hh2
      rw [hh2] at hp0f
      exact absurd hp0f (List.not_mem_nil p0)
    | some x =>
      obtain ⟨hxm, hxpr, hleast⟩ := filter_head?_least _ _ hpw x hh2
      refine ⟨x, hxm, hxpr, ?_, ?_⟩
      · simp only [nextDayStart, hempty, find?_eq_filter_head?, hh2]
      · intro q hq hqa
        exact hleast q hq hqa

/-- C9: after a day phase with at least one rotation speaker, on a dense
roster the rotation pointer is the lowest id among still-alive players at
least `first speaker id + 1`, or the lowest still-alive id when none
qualifies (wrap-around). -/
theorem c9_rotation_pointer (strat : Strategy) (day_no : Nat) (g : GameState)
    (first : Player) (rest : List Player)
    (hd : PidsDense g.players)
    (hord : (speechStage strat g).ordered = first :: rest) :
    ((∃ p ∈ (dayPhase strat day_no g).2.players,
        p.alive = true ∧ first.pid + 1 ≤ p.pid) →
      ∃ p ∈ (dayPhase strat day_no g).2.players,
        p.alive = true ∧ first.pid + 1 ≤ p.pid
        ∧ (dayPhase strat day_no g).2.day_start_pid = p.pid
        ∧ ∀ q ∈ (dayPhase strat day_no g).2.players,
            q.alive = true → first.pid + 1 ≤ q.pid → p.pid ≤ q.pid)
    ∧ ((∀ p ∈ (dayPhase strat day_no g).2.players,
          p.alive = true → p.pid < first.pid + 1) →
        (∃ p ∈ (dayPhase strat day_no g).2.players, p.alive = true) →
        ∃ p ∈ (dayPhase strat day_no g).2.players,
          p.alive = true ∧ (dayPhase strat day_no g).2.day_start_pid = p.pid
          ∧ ∀ q ∈ (dayPhase strat day_no g).2.players,
              q.alive = true → p.pid ≤ q.pid) := by
  have hsnd : (dayPhase strat day_no g).2
      = updateRotation (dayMid strat day_no g) (speechStage strat g).ordered :=
    rfl
  rw [hsnd, hord]
  have hups : updateRotation (dayMid strat day_no g) (first :: rest)
      = { dayMid strat day_no g with
          day_start_pid := nextDayStart (dayMid strat day_no g) first } := rfl
  rw [hups]
  exact nextDayStart_spec (dayMid_players_dense strat day_no g hd) first

/-- Three alive civilians; silent policies: the C9 witness state. -/
def c9State : GameState :=
  { players := [⟨0, Role.CIVILIAN, true⟩, ⟨1, Role.CIVILIAN, true⟩,
      ⟨2, Role.CIVILIAN, true⟩]
    history := []
    day_start_pid := 0
    current_speeches := [] }

/-- Witness for C9: with first speaker 0 and everyone alive, the next
rotation pointer is 1. -/
theorem c9_rotation_pointer_witness :
    (dayPhase silentStrategy 2 c9State).2.day_start_pid = 1 := by
  obtain ⟨p, hpm, hpa, hpge, hpeq, hleast⟩ :=
    (c9_rotation_pointer silentStrategy 2 c9State ⟨0, Role.CIVILIAN, true⟩
      [⟨1, Role.CIVILIAN, true⟩, ⟨2, Role.CIVILIAN, true⟩]
      (by
        intro i hi
        have h3 : i < 3 := hi
        interval_cases i <;> rfl)
      (by decide)).1
      ⟨⟨1, Role.CIVILIAN, true⟩, by decide, by decide, by decide⟩
  rw [hpeq]
  have hle : p.pid ≤ 1 :=
    hleast ⟨1, Role.CIVILIAN, true⟩ (by decide) (by decide) (by decide)
  omega

/-! ### The run loop -/

/-- Outcome of `Game.run`: a winner, the pre-loop `StopIteration` raised by
the don or sheriff lookup, or exhausted fuel (the source loop is
unbounded). -/
inductive RunOutcome where
  | winner (r : Role)
  | setupError
  | outOfFuel
deriving DecidableEq

/-- The round loop of `Game.run` (lines 109-120): day phase, win check,
night phase if undecided, win check again; the round record is appended
before a winner is returned. -/
def gameLoop (strat : Strategy) : Nat → Nat → GameState → RunOutcome × GameState
  | 0, _, g => (RunOutcome.outOfFuel, g)
  | fuel + 1, round_no, g =>
    let d := dayPhase strat round_no g
    match checkWin d.2 with
    | some r =>
      (RunOutcome.winner r, { d.2 with history := d.2.history ++ [⟨d.1, none⟩] })
    | none =>
      let n := nightPhase strat d.2
      let g2 := { n.2 with history := n.2.history ++ [⟨d.1, some n.1⟩] }
      match checkWin n.2 with
      | some r => (RunOutcome.winner r, g2)
      | none => gameLoop strat fuel (round_no + 1) g2

/-- `Game.run` (`src/mafia/game.py` lines 102-120): the don lookup and the
sheriff lookup (`next(...)` without default) run before the loop and raise
`StopIteration` when the roster lacks the role, leaving the state
untouched. -/
def run (strat : Strategy) (fuel : Nat) (g : GameState) :
    RunOutcome × GameState :=
  match g.players.find? (fun p => decide (p.role = Role.DON)),
        g.players.find? (fun p => decide (p.role = Role.SHERIFF)) with
  | some _, some _ => gameLoop strat fuel 1 g
  | _, _ => (RunOutcome.setupError, g)

/-- The round loop itself never reports a setup error. -/
theorem gameLoop_ne_setupError (strat : Strategy) :
    ∀ (fuel round_no : Nat) (g : GameState),
      (gameLoop strat fuel round_no g).1 ≠ RunOutcome.setupError := by
  intro fuel
  induction fuel with
  | zero =>
    intro round_no g
    exact fun h => RunOutcome.noConfusion h
  | succ f ih =>
    intro round_no g
    simp only [gameLoop]
    cases h1 : checkWin (dayPhase strat round_no g).2 with
    | some r => exact fun h => RunOutcome.noConfusion h
    | none =>
      cases h2 : checkWin (nightPhase strat (dayPhase strat round_no g).2).2 with
      | some r => exact fun h => RunOutcome.noConfusion h
      | none => exact ih _ _

/-- C10: `run` raises before any phase executes — returning the setup error
with the state (and so the history) unchanged — exactly when the roster has
no don or no sheriff; a roster that starts running therefore has both. -/
theorem c10_run_requires_don_and_sheriff (strat : Strategy) (fuel : Nat)
    (g : GameState) :
    (run strat fuel g = (RunOutcome.setupError, g)
      ↔ ((∀ p ∈ g.players, p.role ≠ Role.DON)
          ∨ (∀ p ∈ g.players, p.role ≠ Role.SHERIFF)))
    ∧ ((run strat fuel g).1 = RunOutcome.setupError → (run strat fuel g).2 = g
        ∧ (run strat fuel g).2.history = g.history) := by
  have hmain : run strat fuel g = (RunOutcome.setupError, g)
      ↔ ((∀ p ∈ g.players, p.role ≠ Role.DON)
          ∨ (∀ p ∈ g.players, p.role ≠ Role.SHERIFF)) := by
    constructor
    · intro hrun
      by_cases hdon : ∃ p ∈ g.players, p.role = Role.DON
      · by_cases hsher : ∃ p ∈ g.players, p.role = Role.SHERIFF
        · exfalso
          obtain ⟨pd, hpdm, hpdr⟩ := hdon
          obtain ⟨ps, hpsm, hpsr⟩ := hsher
          have hd : ((g.players.find? (fun p => decide (p.role = Role.DON))).isSome) := by
            rw [List.find?_isSome]
            exact ⟨pd, hpdm, by simp [hpdr]⟩
          have hsh : ((g.players.find? (fun p => decide (p.role = Role.SHERIFF))).isSome) := by
            rw [List.find?_isSome]
            exact ⟨ps, hpsm, by simp [hpsr]⟩
          obtain ⟨xd, hxd⟩ := Option.isSome_iff_exists.mp hd
          obtain ⟨xs, hxs⟩ := Option.isSome_iff_exists.mp hsh
          have : run strat fuel g = gameLoop strat fuel 1 g := by
            rw [run, hxd, hxs]
          rw [this] at hrun
          have := congrArg Prod.fst hrun
          exact gameLoop_ne_setupError strat fuel 1 g this
        · right
          intro p hp hpr
          exact hsher ⟨p, hp, hpr⟩
      · left
        intro p hp hpr
        exact hdon ⟨p, hp, hpr⟩
    · intro hnone
      have hcase : g.players.find? (fun p => decide (p.role = Role.DON)) = none
          ∨ g.players.find? (fun p => decide (p.role = Role.SHERIFF)) = none := by
        rcases hnone with h | h
        · left
          rw [List.find?_eq_none]
          intro p hp
          simp only [decide_eq_true_eq]
          exact h p hp
        · right
          rw [List.find?_eq_none]
          intro p hp
          simp only [decide_eq_true_eq]
          exact h p hp
      rcases hcase with h | h
      · rw [run, h]
      · rw [run, h]
        cases g.players.find? (fun p => decide (p.role = Role.DON)) with
        | none => rfl
        | some x => rfl
  refine ⟨hmain, ?_⟩
  intro herr
  cases hdon : g.players.find? (fun p => decide (p.role = Role.DON)) with
  | none =>
    have : run strat fuel g = (RunOutcome.setupError, g) := by
      rw [run, hdon]
    rw [this]
    exact ⟨rfl, rfl⟩
  | some xd =>
    cases hsher : g.players.find? (fun p => decide (p.role = Role.SHERIFF)) with
    | none =>
      have : run strat fuel g = (RunOutcome.setupError, g) := by
        rw [run, hdon, hsher]
      rw [this]
      exact ⟨rfl, rfl⟩
    | some xs =>
      exfalso
      have : run strat fuel g = gameLoop strat fuel 1 g := by
        rw [run, hdon, hsher]
      rw [this] at herr
      exact gameLoop_ne_setupError strat fuel 1 g herr

/-- Roster with a don but no sheriff: the C10 witness state. -/
def c10State : GameState :=
  { players := [⟨0, Role.CIVILIAN, true⟩, ⟨1, Role.DON, true⟩,
      ⟨2, Role.MAFIA, true⟩]
    history := []
    day_start_pid := 0
    current_speeches := [] }

/-- Witness for C10: the sheriff-less roster makes `run` fail before any
round, leaving the history empty. -/
theorem c10_run_requires_don_and_sheriff_witness :
    run silentStrategy 5 c10State = (RunOutcome.setupError, c10State) :=
  (c10_run_requires_don_and_sheriff silentStrategy 5 c10State).1.mpr
    (Or.inr (by decide))

end Mafia
